import Mathlib

/-!
Verification of the xenohooks orchestrator (configuration merging, task
selection and execution, feedback store, background task queue, router
decision engine) against its natural-language specification.

Python values are modelled by the inductive `Value` (numeric scalars are
modelled as integers; wall-clock timestamps are integers).  Python dicts are
modelled as insertion-ordered association lists: assignment to an existing
key replaces the value in place, assignment to a fresh key appends, deletion
filters.  This matches CPython dict semantics; Python dicts never hold
duplicate keys, which is carried as a `nodup` hypothesis where needed.
-/

namespace Xeno

/-- Model of a Python runtime value (the subset the hooks code manipulates). -/
inductive Value where
  | null
  | bool (b : Bool)
  | str (s : String)
  | int (n : Int)
  | list (items : List Value)
  | dict (items : List (String × Value))
deriving Repr

abbrev KV := String × Value

mutual

/-- Boolean equality on modelled Python values. -/
def beqV : Value → Value → Bool
  | .null, .null => true
  | .bool a, .bool b => a == b
  | .str a, .str b => a == b
  | .int a, .int b => a == b
  | .list xs, .list ys => beqVL xs ys
  | .dict xs, .dict ys => beqVKV xs ys
  | _, _ => false

/-- Boolean equality on lists of modelled values. -/
def beqVL : List Value → List Value → Bool
  | [], [] => true
  | x :: xs, y :: ys => beqV x y && beqVL xs ys
  | _, _ => false

/-- Boolean equality on ordered dict entries. -/
def beqVKV : List KV → List KV → Bool
  | [], [] => true
  | (k, v) :: xs, (l, w) :: ys => k == l && beqV v w && beqVKV xs ys
  | _, _ => false

end

mutual

theorem beqV_iff : ∀ (a b : Value), beqV a b = true ↔ a = b
  | .null, b => by cases b <;> simp [beqV]
  | .bool a, b => by cases b <;> simp [beqV]
  | .str a, b => by cases b <;> simp [beqV]
  | .int a, b => by cases b <;> simp [beqV]
  | .list xs, b => by
      cases b with
      | list ys => simpa [beqV] using beqVL_iff xs ys
      | null => simp [beqV]
      | bool c => simp [beqV]
      | str s => simp [beqV]
      | int n => simp [beqV]
      | dict kvs => simp [beqV]
  | .dict xs, b => by
      cases b with
      | dict ys => simpa [beqV] using beqVKV_iff xs ys
      | null => simp [beqV]
      | bool c => simp [beqV]
      | str s => simp [beqV]
      | int n => simp [beqV]
      | list vs => simp [beqV]

theorem beqVL_iff : ∀ (a b : List Value), beqVL a b = true ↔ a = b
  | [], b => by cases b <;> simp [beqVL]
  | x :: xs, b => by
      cases b with
      | nil => simp [beqVL]
      | cons y ys =>
          simp only [beqVL, Bool.and_eq_true, List.cons.injEq]
          exact and_congr (beqV_iff x y) (beqVL_iff xs ys)

theorem beqVKV_iff : ∀ (a b : List KV), beqVKV a b = true ↔ a = b
  | [], b => by cases b <;> simp [beqVKV]
  | (k, v) :: xs, b => by
      cases b with
      | nil => simp [beqVKV]
      | cons p ys =>
          obtain ⟨l, w⟩ := p
          simp [beqVKV, beqV_iff v w, beqVKV_iff xs ys, and_assoc]

end

instance : DecidableEq Value := fun a b =>
  decidable_of_iff (beqV a b = true) (beqV_iff a b)

/-- Membership test for a key in an ordered dict (`k in d`). -/
def containsKey (k : String) (d : List KV) : Bool :=
  d.any (fun p => p.1 == k)

/-- Python dict assignment `d[k] = v`: replace in place if present, else append. -/
def odSet (k : String) (v : Value) (d : List KV) : List KV :=
  if containsKey k d then d.map (fun p => if p.1 == k then (k, v) else p)
  else d ++ [(k, v)]

/-- Python dict deletion `d.pop(k, None)`. -/
def odPop (k : String) (d : List KV) : List KV :=
  d.filter (fun p => p.1 != k)

/-- Python dict lookup `d.get(k)`. -/
def odGet (k : String) (d : List KV) : Option Value :=
  (d.find? (fun p => p.1 == k)).map (fun p => p.2)

/-- Characters Python `str.strip()` removes. -/
def pySpace (c : Char) : Bool :=
  c == ' ' || c == '\t' || c == '\n' || c == '\r' || c == '\x0b' || c == '\x0c'

/-- Python `str.strip()` (ASCII whitespace). -/
def pyStrip (s : String) : String :=
  ((s.toList.dropWhile pySpace).reverse.dropWhile pySpace).reverse.asString

/-- Python `str.lower()` (ASCII). -/
def pyLower (s : String) : String := (s.toList.map Char.toLower).asString

/-- Character-level split (used to keep string functions kernel-reducible). -/
def pySplitChar (sep : Char) : List Char → List (List Char)
  | [] => [[]]
  | c :: cs =>
      if c = sep then [] :: pySplitChar sep cs
      else
        match pySplitChar sep cs with
        | [] => [[c]]
        | g :: gs => (c :: g) :: gs

/-- Python `str.splitlines()` for newline-only line breaks. -/
def pySplitlines (s : String) : List String :=
  let ps := (pySplitChar '\n' s.toList).map (fun g => g.asString)
  if ps.getLast? = some "" then ps.dropLast else ps

/-- Python truthiness of an optional string field (`None` and `""` are falsy). -/
def optStrTruthy : Option String → Bool
  | some s => s != ""
  | none => false

/-- Python truthiness of a `Value`. -/
def vTruthy : Value → Bool
  | .null => false
  | .bool b => b
  | .str s => s != ""
  | .int n => n != 0
  | .list xs => !xs.isEmpty
  | .dict kvs => !kvs.isEmpty

/-- Keys of an ordered dict are pairwise distinct (Python dicts cannot hold
duplicate keys). -/
def nodupKeys (d : List KV) : Prop := (d.map Prod.fst).Nodup

instance (d : List KV) : Decidable (nodupKeys d) := by
  unfold nodupKeys; infer_instance

/-- Insertion step of a stable sort (used to model SQL ORDER BY; ties keep
their original relative order, matching a stable sort over the table). -/
def insV {α : Type} (le : α → α → Bool) (x : α) : List α → List α
  | [] => [x]
  | y :: ys => if le x y then x :: y :: ys else y :: insV le x ys

/-- Stable sort by a boolean comparison (models SQL ORDER BY). -/
def sortByB {α : Type} (le : α → α → Bool) : List α → List α
  | [] => []
  | x :: xs => insV le x (sortByB le xs)

instance {ε α : Type} [DecidableEq ε] [DecidableEq α] :
    DecidableEq (Except ε α) := fun x y =>
  match x, y with
  | .ok a, .ok b =>
      if h : a = b then .isTrue (by rw [h])
      else .isFalse (by intro hc; cases hc; exact h rfl)
  | .error a, .error b =>
      if h : a = b then .isTrue (by rw [h])
      else .isFalse (by intro hc; cases hc; exact h rfl)
  | .ok _, .error _ => .isFalse (by intro hc; cases hc)
  | .error _, .ok _ => .isFalse (by intro hc; cases hc)

/-! ## FeedbackStore (src/xenohooks/common/feedback.py)

The SQLite table `feedback_items` is modelled as a list of rows in insertion
order.  `sha256`-derived identifiers are opaque to every property proved
here, so the two hash functions are parameters of the embedding (`HashEnv`).
Wall-clock times (`time.time()`) are integer parameters. -/

/-- Row of the `feedback_items` table / the `FeedbackItem` dataclass. -/
structure FeedbackItem where
  instance_id : String
  issue_id : String
  content : String
  task_id : String
  severity : Option String := none
  category : Option String := none
  file_path : Option String := none
  strategy : String := "show_once"
  first_seen : Int := 0
  last_seen : Int := 0
  occurrence_count : Int := 1
  times_shown : Int := 0
deriving Repr, DecidableEq

instance : Inhabited FeedbackItem :=
  ⟨{ instance_id := "", issue_id := "", content := "", task_id := "" }⟩

/-- Environment for the two content hashes used by the store
(`hashlib.sha256(...)[:16]` and `[:8]`); their values are opaque here. -/
structure HashEnv where
  contentHash : String → String
  prefixHash : String → String

/-- Python `Path(p).name`: the last path component. -/
def pyBasename (s : String) : String :=
  (((pySplitChar '/' s.toList).map (fun g => g.asString)).filter
    (fun c => c != "")).getLast?.getD ""

/-- Default cache duration in seconds (`DEFAULT_DEDUP_WINDOW`). -/
def DEFAULT_DEDUP_WINDOW : Int := 300

/-- Stable issue id `{task_id}:{file}:{issue_hash}` (`_issue_id`). -/
def issueIdOf (henv : HashEnv) (task_id : String) (file_path : Option String)
    (content : String) : String :=
  let file_part :=
    match file_path with
    | some fp => if fp != "" then pyBasename fp else "global"
    | none => "global"
  task_id ++ ":" ++ file_part ++ ":" ++ henv.prefixHash (content.take 100)

/-- Purge of expired rows (`_cleanup_expired`): delete rows whose `last_seen`
is before `now - window`. -/
def cleanup_expired (now window : Int) (st : List FeedbackItem) :
    List FeedbackItem :=
  st.filter (fun r => decide (now - window ≤ r.last_seen))

/-- The store mutation and returned item of `record_feedback`. -/
def record_feedback (henv : HashEnv) (content task_id : String)
    (file_path severity category : Option String) (strategy : String)
    (now : Int) (st : List FeedbackItem) :
    FeedbackItem × List FeedbackItem :=
  if pyStrip content = "" then
    ({ instance_id := "empty", issue_id := "empty", content := "",
       task_id := task_id, strategy := "always" }, st)
  else
    let stripped := pyStrip content
    let instId := henv.contentHash stripped
    let iid := issueIdOf henv task_id file_path stripped
    let st1 := cleanup_expired now DEFAULT_DEDUP_WINDOW st
    match st1.find? (fun r => r.issue_id == iid) with
    | some _ =>
        let st2 := st1.map (fun r =>
          if r.issue_id == iid then
            { r with instance_id := instId, content := stripped,
                     last_seen := now,
                     occurrence_count := r.occurrence_count + 1 }
          else r)
        (((st2.find? (fun r => r.issue_id == iid)).getD default), st2)
    | none =>
        let row : FeedbackItem :=
          { issue_id := iid, instance_id := instId, content := stripped,
            task_id := task_id, severity := severity, category := category,
            file_path := file_path, strategy := strategy,
            first_seen := now, last_seen := now,
            occurrence_count := 1, times_shown := 0 }
        let st2 := st1 ++ [row]
        (((st2.find? (fun r => r.issue_id == iid)).getD default), st2)

/-- Strategy dispatch of `should_show_feedback`. -/
def should_show_feedback (item : FeedbackItem) : Bool :=
  if item.strategy = "always" then true
  else if item.strategy = "show_once" then item.times_shown == 0
  else if item.strategy = "summary_after_first" then item.times_shown == 0
  else if item.strategy = "defer" then false
  else true

/-- Store mutation of `mark_shown`: bump `times_shown` for the given issue id.
Note: the source performs no `_cleanup_expired` call here. -/
def mark_shown (issue_id : String) (st : List FeedbackItem) :
    List FeedbackItem :=
  st.map (fun r =>
    if r.issue_id == issue_id then { r with times_shown := r.times_shown + 1 }
    else r)

/-- Result rows and store mutation of `get_feedback_summary`. -/
def get_feedback_summary (min_occurrences : Int) (now : Int)
    (st : List FeedbackItem) : List FeedbackItem × List FeedbackItem :=
  let st1 := cleanup_expired now DEFAULT_DEDUP_WINDOW st
  let rows := (st1.filter (fun r => decide (min_occurrences ≤ r.occurrence_count)))
    |> sortByB (fun a b => decide (b.last_seen ≤ a.last_seen))
  (rows, st1)

/-- Result rows and store mutation of `get_deferred_feedback`. -/
def get_deferred_feedback (now : Int) (st : List FeedbackItem) :
    List FeedbackItem × List FeedbackItem :=
  let st1 := cleanup_expired now DEFAULT_DEDUP_WINDOW st
  let rows := (st1.filter (fun r => r.strategy == "defer"))
    |> sortByB (fun a b => decide (a.first_seen ≤ b.first_seen))
  (rows, st1)

/-! ## BackgroundQueue (src/xenohooks/common/task_queue.py and
src/xenohooks/common/task_runner.py)

The SQLite `tasks` table is modelled as a list of rows.  `poll`-time
process probing (`os.kill(pid, 0)`) and output-file reads are modelled by an
environment (`PollEnv`); `json.loads` is modelled by a parse-function
parameter.  Timestamps are integers. -/

/-- Row of the `tasks` table / the `BackgroundTask` dataclass. -/
structure BTask where
  task_id : String
  task_type : String
  status : String
  command : Option (List String) := none
  metadata : Option (List KV) := none
  source : String := "unknown"
  session_id : String := ""
  created_at : Int := 0
  started_at : Option Int := none
  completed_at : Option Int := none
  timeout : Int := 120
  exit_code : Option Int := none
  stdout : Option String := none
  stderr : Option String := none
  error : Option String := none
deriving Repr, DecidableEq

/-- ORDER BY `started_at` ASC with SQL NULLs first (`get_running_tasks`). -/
def startedLE (a b : BTask) : Bool :=
  match a.started_at, b.started_at with
  | none, _ => true
  | some _, none => false
  | some x, some y => decide (x ≤ y)

/-- ORDER BY `completed_at` DESC, SQL NULLs last (`get_completed_tasks`). -/
def completedDescLE (a b : BTask) : Bool :=
  match a.completed_at, b.completed_at with
  | none, none => true
  | none, some _ => false
  | some _, none => true
  | some x, some y => decide (y ≤ x)

/-- Rows with status `running`, oldest `started_at` first. -/
def get_running_tasks (st : List BTask) : List BTask :=
  sortByB startedLE (st.filter (fun t => t.status == "running"))

/-- Rows with status `completed` or `failed`, most recent first, LIMIT. -/
def get_completed_tasks (limit : Nat) (st : List BTask) : List BTask :=
  (sortByB completedDescLE
    (st.filter (fun t => t.status == "completed" || t.status == "failed"))).take
    limit

/-- Optional column updates passed to `update_task_status`. -/
structure TaskUpdate where
  status : Option String := none
  started_at : Option Int := none
  completed_at : Option Int := none
  exit_code : Option Int := none
  stdout : Option String := none
  stderr : Option String := none
  error : Option String := none
  metadata : Option (List KV) := none
deriving Repr

/-- Apply the non-`None` fields of an update to a row. -/
def applyFields (u : TaskUpdate) (r : BTask) : BTask :=
  { r with
    status := u.status.getD r.status,
    started_at := (u.started_at.map some).getD r.started_at,
    completed_at := (u.completed_at.map some).getD r.completed_at,
    exit_code := (u.exit_code.map some).getD r.exit_code,
    stdout := (u.stdout.map some).getD r.stdout,
    stderr := (u.stderr.map some).getD r.stderr,
    error := (u.error.map some).getD r.error,
    metadata := (u.metadata.map some).getD r.metadata }

/-- UPDATE `tasks` SET ... WHERE `task_id` = ? (`update_task_status`). -/
def update_task_status (task_id : String) (u : TaskUpdate)
    (st : List BTask) : List BTask :=
  st.map (fun r => if r.task_id == task_id then applyFields u r else r)

/-- DELETE FROM `tasks` WHERE `task_id` = ? (`mark_task_consumed`). -/
def mark_task_consumed (task_id : String) (st : List BTask) : List BTask :=
  st.filter (fun r => r.task_id != task_id)

/-- Environment for one `check_running_tasks` pass: the wall clock, the
`os.kill(pid, 0)` existence probe and the captured-output file reads. -/
structure PollEnv where
  now : Int
  pidExists : Int → Bool
  readFile : String → Option String

/-- Read of a captured output file; any exception (including `Path(...)` on a
non-string value) is swallowed and yields the empty string. -/
def readFileV (env : PollEnv) (v : Value) : String :=
  match v with
  | .str s => (env.readFile s).getD ""
  | _ => ""

/-- Read the output file named by `metadata[key]`, empty if absent/falsy. -/
def readOut (env : PollEnv) (md : List KV) (key : String) : String :=
  match odGet key md with
  | some v => if vTruthy v then readFileV env v else ""
  | none => ""

/-- Python truthiness of `task.started_at` followed by the elapsed-time
comparison in `check_running_tasks`. -/
def timedOutB (env : PollEnv) (t : BTask) : Bool :=
  match t.started_at with
  | some s => s != 0 && decide (env.now - s > t.timeout)
  | none => false

/-- `os.kill(pid, 0)` succeeding; `TypeError` on a non-integer pid lands in
the same `except` branch as a dead process. -/
def pidAliveB (env : PollEnv) (v : Value) : Bool :=
  match v with
  | .int p => env.pidExists p
  | _ => false

/-- Python truthiness of the optional metadata dict. -/
def mdTruthy : Option (List KV) → Bool
  | some md => !md.isEmpty
  | none => false

/-- Body of the `check_running_tasks` loop for one running row. -/
def pollStep (env : PollEnv) (acc : List String × List BTask) (t : BTask) :
    List String × List BTask :=
  let ids := acc.1
  let cur := acc.2
  if timedOutB env t then
    let so := if mdTruthy t.metadata then readOut env (t.metadata.getD []) "stdout_file" else ""
    let se := if mdTruthy t.metadata then readOut env (t.metadata.getD []) "stderr_file" else ""
    (ids ++ [t.task_id],
      update_task_status t.task_id
        { status := some "failed", completed_at := some env.now,
          error := some ("Task timed out after " ++ toString t.timeout ++ "s"),
          stdout := some so, stderr := some se } cur)
  else
    match t.metadata with
    | some md =>
        if containsKey "pid" md then
          match odGet "pid" md with
          | some pv =>
              if pidAliveB env pv then (ids, cur)
              else
                let so := readOut env md "stdout_file"
                let se := readOut env md "stderr_file"
                let ec : Int := if se = "" then 0 else 1
                (ids ++ [t.task_id],
                  update_task_status t.task_id
                    { status := some (if ec = 0 then "completed" else "failed"),
                      completed_at := some env.now, exit_code := some ec,
                      stdout := some so, stderr := some se } cur)
          | none => (ids, cur)
        else (ids, cur)
    | none => (ids, cur)

/-- The ids marked done and the queue mutation of `check_running_tasks`. -/
def check_running_tasks (env : PollEnv) (st : List BTask) :
    List String × List BTask :=
  (get_running_tasks st).foldl (pollStep env) ([], st)

/-- Feedback-shaped value built by `_parse_task_output`. -/
structure FbData where
  content : Value
  severity : Value
  category : Value
  task_id : String
deriving Repr, DecidableEq

/-- First truthy of `task.error or task.stderr or "Unknown error"`. -/
def errMsgOf (t : BTask) : String :=
  match t.error with
  | some e => if e != "" then e else
      match t.stderr with
      | some s => if s != "" then s else "Unknown error"
      | none => "Unknown error"
  | none =>
      match t.stderr with
      | some s => if s != "" then s else "Unknown error"
      | none => "Unknown error"

/-- `_parse_task_output`.  The `Except.error` case models the uncaught
`AttributeError` raised when the structured feedback list's first element is
not an object (only `JSONDecodeError`, `KeyError` and `IndexError` are
caught at this site). -/
def parse_task_output (jsonParse : String → Option Value) (t : BTask) :
    Except String (Option FbData) :=
  let fallback : Option FbData :=
    match t.stdout, t.exit_code with
    | some s, some 0 =>
        if s != "" then
          some { content := .str ("Background task completed:\n" ++ s.take 500),
                 severity := .str "info", category := .str "background-task",
                 task_id := t.source }
        else none
    | _, some 0 => none
    | _, _ =>
        some { content := .str ("Background task failed: " ++ (errMsgOf t).take 500),
               severity := .str "warn", category := .str "background-task",
               task_id := t.source }
  match t.stdout with
  | some s =>
      if s != "" then
        match jsonParse s with
        | some (.dict d) =>
            if containsKey "feedback" d then
              match odGet "feedback" d with
              | some (.list (first :: _)) =>
                  match first with
                  | .dict fd =>
                      .ok (some
                        { content := (odGet "content" fd).getD (.str ""),
                          severity := (odGet "severity" fd).getD (.str "info"),
                          category := (odGet "category" fd).getD (.str "background-task"),
                          task_id := t.source })
                  | _ => .error "AttributeError: feedback element has no attribute get"
              | _ => .ok fallback
            else .ok fallback
        | _ => .ok fallback
      else .ok fallback
  | none => .ok fallback

/-- Loop body of `process_completed_tasks`: parse (which may raise, leaving
the row in place), collect, then delete the consumed row. -/
def harvestGo (jsonParse : String → Option Value) :
    List BTask → List FbData → List BTask →
    Except (String × List BTask) (List FbData × List BTask)
  | [], acc, cur => .ok (acc, cur)
  | t :: rest, acc, cur =>
      match parse_task_output jsonParse t with
      | .error e => .error (e, cur)
      | .ok fb =>
          harvestGo jsonParse rest (acc ++ fb.toList)
            (mark_task_consumed t.task_id cur)

/-- `process_completed_tasks`: harvest up to 10 completed/failed rows. -/
def process_completed_tasks (jsonParse : String → Option Value)
    (st : List BTask) :
    Except (String × List BTask) (List FbData × List BTask) :=
  harvestGo jsonParse (get_completed_tasks 10 st) [] st

/-- Concrete hash environment used by witnesses. -/
def hashEnvEx : HashEnv := ⟨fun _ => "hh", fun _ => "pp"⟩

def c3Row : FeedbackItem :=
  { instance_id := "hh", issue_id := "i1", content := "c", task_id := "t",
    last_seen := 0 }

def harvestWitTask : BTask :=
  { task_id := "bg0", task_type := "command", status := "completed",
    source := "cli", completed_at := some 3, exit_code := some 0,
    stdout := none }

def c10Task : BTask :=
  { task_id := "bg1", task_type := "command", status := "completed",
    source := "cli", completed_at := some 10, exit_code := some 0,
    stdout := some "\x7b\x22feedback\x22: [0]\x7d" }

/-- Model of `json.loads` on the one string the counterexample feeds it. -/
def c10Json : String → Option Value := fun s =>
  if s = "\x7b\x22feedback\x22: [0]\x7d" then
    some (.dict [("feedback", .list [.int 0])])
  else none


/-- Concrete poll environment and running task used by the C7 witness. -/
def c7env : PollEnv :=
  { now := 10, pidExists := fun _ => false,
    readFile := fun p =>
      if p = "out.txt" then some "ok"
      else if p = "err.txt" then some "" else none }

def c7md : List KV :=
  [("pid", .int 42), ("stdout_file", .str "out.txt"),
   ("stderr_file", .str "err.txt")]

def c7task : BTask :=
  { task_id := "bg", task_type := "command", status := "running",
    started_at := some 5, timeout := 120, metadata := some c7md }


/-! ## TaskRunner (src/xenohooks/common/types.py and
src/xenohooks/common/runner.py)

Task callables are modelled as functions returning `Except String`: the
`.error` case is a raised exception with its message.  `perf_counter`
elapsed times and `Future.result(timeout=...)` expiry are inherently
wall-clock behaviour, so they are parameters of the embedding (`RunEnv`);
the thread pool collects results in submission order (the code iterates
`futures` in submission order), which the fold reproduces.  The worker-pool
size bounds concurrency only and does not affect the collected results. -/

/-- The `Action` dataclass of types.py. -/
structure Action where
  block : Bool := false
  reason : Option String := none
  end_turn : Bool := false
  add_context : Option String := none
  permission_decision : Option String := none
  permission_decision_reason : Option String := none
  user_message : Option String := none
  suppress_output : Option Bool := none
  system_message : Option String := none
  exit2 : Option Bool := none
  file_path : Option String := none
  task_id : Option String := none
  elapsed_seconds : Option Int := none
  severity : Option String := none
  category : Option String := none
deriving Repr, DecidableEq

/-- `flatten_actions`: a bare `Action` becomes a singleton list. -/
def flatten_actions : Sum Action (List Action) → List Action
  | .inl a => [a]
  | .inr l => l

/-- The `TaskDescriptor` dataclass; `fn` may raise (`Except.error`). -/
structure RDesc where
  id : String
  fn : Value → Except String (Sum Action (List Action))
  timeout_seconds : Option Int := none
  params : Option Value := none

/-- Wall-clock environment of one `run_parallel` call. -/
structure RunEnv where
  elapsedOf : String → Int
  timesOut : String → Bool
  timeoutErr : String → String

/-- Payload augmentation of `_safe_task_call`: `payload2["task"] =
{"id": ..., "params": ...}`.  The router only ever passes a dict
payload (enforced when stdin is parsed). -/
def taskPayload (payload : Value) (d : RDesc) : Value :=
  match payload with
  | .dict kvs =>
      .dict (odSet "task"
        (.dict [("id", .str d.id), ("params", d.params.getD .null)]) kvs)
  | v => v

/-- `_safe_task_call`: run one task, stamping task id and elapsed time, and
converting a raised exception into a single non-blocking warning action. -/
def safe_task_call (env : RunEnv) (d : RDesc) (payload : Value) :
    List Action :=
  let elapsed := env.elapsedOf d.id
  match d.fn (taskPayload payload d) with
  | .ok out =>
      (flatten_actions out).map (fun a =>
        let a1 := if a.task_id = none then { a with task_id := some d.id }
          else a
        if a1.elapsed_seconds = none then
          { a1 with elapsed_seconds := some elapsed }
        else a1)
  | .error e =>
      [{ block := false, reason := some e, task_id := some d.id,
         elapsed_seconds := some elapsed }]

/-- One iteration of the result-collection loop of `run_parallel`: either
`fut.result(timeout)` raises (timeout/executor error, a warning action with
no elapsed time) or the task's actions are collected. -/
def runStep (env : RunEnv) (payload : Value) (d : RDesc) : List Action :=
  if env.timesOut d.id then
    [{ block := false, reason := some (env.timeoutErr d.id),
       task_id := some d.id, elapsed_seconds := none }]
  else safe_task_call env d payload

/-- `run_parallel`: all tasks are submitted, then results are collected in
submission order. -/
def run_parallel (env : RunEnv) (tasks : List RDesc) (payload : Value) :
    List Action :=
  if tasks.isEmpty then []
  else tasks.foldl (fun acc d => acc ++ runStep env payload d) []

/-- Concrete runner environment and tasks used by the C6 witness. -/
def runEnvEx : RunEnv :=
  { elapsedOf := fun _ => 1, timesOut := fun _ => false,
    timeoutErr := fun _ => "timeout" }

def okAction : Action := { add_context := some "fine", task_id := some "w1" }

def descOk : RDesc :=
  { id := "w1", fn := fun _ => .ok (.inl okAction) }

def descBoom : RDesc :=
  { id := "w2", fn := fun _ => .error "boom" }

def descOk2 : RDesc :=
  { id := "w3", fn := fun _ => .ok (.inr [{ reason := some "r3" }]) }


/-! ## DecisionEngine (src/xenohooks/router.py, `main` after config load)

The decision section of `main` is embedded as pure functions over the
collected `results`.  The stdout JSON object is a `Value` dict; the
session-scoped side effects (feedback-store writes, the SessionEnd
`cleanup_session` / task-queue cleanup calls) are returned explicitly. -/

mutual

/-- Python `str(v)`. -/
def pyStr : Value → String
  | .str s => s
  | v => pyRepr v

/-- Python `repr(v)` (string quoting uses no escaping; only scalar rules are
ever fed through this in practice). -/
def pyRepr : Value → String
  | .null => "None"
  | .bool true => "True"
  | .bool false => "False"
  | .int n => toString n
  | .str s => "\x27" ++ s ++ "\x27"
  | .list xs => "[" ++ String.intercalate ", " (pyReprL xs) ++ "]"
  | .dict kvs => "\x7b" ++ String.intercalate ", " (pyReprKV kvs) ++ "\x7d"

def pyReprL : List Value → List String
  | [] => []
  | x :: xs => pyRepr x :: pyReprL xs

def pyReprKV : List KV → List String
  | [] => []
  | (k, v) :: xs => ("\x27" ++ k ++ "\x27: " ++ pyRepr v) :: pyReprKV xs

end

/-- Python `":" in s`. -/
def pyHasColon (s : String) : Bool := s.toList.any (fun c => c == ':')

/-- Python `s.split(":", 1)`. -/
def pySplit1 (s : String) : String × String :=
  let cs := s.toList
  let pre := cs.takeWhile (fun c => c != ':')
  (pre.asString, (cs.drop (pre.length + 1)).asString)

/-- One rule test of `_matches_policy`: `severity`, `category` or
`category:severity`. -/
def ruleMatches (sev cat : String) (rule : Value) : Bool :=
  let s := pyStrip (pyLower (pyStr rule))
  if s = "" then false
  else if pyHasColon s then
    let rs := pySplit1 s
    (rs.1 == "" || rs.1 == cat) && (rs.2 == "" || rs.2 == sev)
  else if s == "info" || s == "warn" || s == "error" then sev == s
  else s == cat

/-- `_matches_policy`: an empty `block_on` matches nothing. -/
def matches_policy (block_on : List Value) (a : Action) : Bool :=
  if block_on.isEmpty then false
  else
    let sev := pyLower (a.severity.getD "")
    let cat := pyLower (a.category.getD "")
    block_on.any (ruleMatches sev cat)

/-- `block_on` extraction from the merged config (router lines 268-269). -/
def blockOnOf (cfg : List KV) : List Value :=
  match odGet "policy" cfg with
  | some (.dict p) =>
      match odGet "block_on" p with
      | some (.list l) => l
      | _ => []
  | _ => []

/-- `_truncate_context`. -/
def truncate_context (text : String) (max_lines : Nat) : String :=
  if text = "" then text
  else
    let lines := pySplitlines text
    if lines.length ≤ max_lines then text
    else
      String.intercalate "\n" (lines.take max_lines) ++
        "\n\n... (" ++ toString (lines.length - max_lines) ++
        " more lines truncated for brevity)"

/-- `_reason_from_blocks`. -/
def reason_from_blocks (event_name : String) (blocks : List Action) :
    String :=
  let texts := blocks.filterMap (fun a =>
    match a.reason with
    | some r =>
        if pyStrip r ≠ "" then some (pyStrip r)
        else
          match a.add_context with
          | some c => if pyStrip c ≠ "" then some (pyStrip c) else none
          | none => none
    | none =>
        match a.add_context with
        | some c => if pyStrip c ≠ "" then some (pyStrip c) else none
        | none => none)
  if texts ≠ [] then
    let detailed := truncate_context (String.intercalate "\n\n" texts) 50
    if event_name = "PostToolUse" then "Issues found:\n" ++ detailed
    else detailed
  else
    let ids := blocks.filterMap (fun a =>
      match a.task_id with
      | some t => if t ≠ "" then some t else none
      | none => none)
    if ids ≠ [] then
      if event_name = "PostToolUse" then
        "Issues found in: " ++ String.intercalate ", " ids
      else "Blocked by: " ++ String.intercalate ", " ids
    else if event_name = "PostToolUse" then "Issues found" else "Blocked"

/-- `_merged_context`: joins the original (unstripped) advisory texts. -/
def merged_context (adds : List Action) : String :=
  let lines := adds.filterMap (fun a =>
    match a.add_context with
    | some c => if pyStrip c ≠ "" then some c else none
    | none => none)
  truncate_context (String.intercalate "\n" lines) 50

/-- The PostToolUse dedup loop (router lines 303-322): each advisory is
recorded with strategy `show_once` and kept only if `should_show_feedback`
accepts it, in which case it is marked shown. -/
def dedupeAdds (henv : HashEnv) (now : Int) (adds : List Action)
    (st : List FeedbackItem) : List Action × List FeedbackItem :=
  adds.foldl (fun acc a =>
    match a.add_context with
    | some c =>
        if c ≠ "" then
          let rec1 := record_feedback henv c (a.task_id.getD "unknown")
            a.file_path a.severity a.category "show_once" now acc.2
          if should_show_feedback rec1.1 then
            (acc.1 ++ [a], mark_shown rec1.1.issue_id rec1.2)
          else (acc.1, rec1.2)
        else acc
    | none => acc) ([], st)

/-- Result of the decision section: the JSON response object, the mutated
feedback store and whether the two SessionEnd cleanups ran. -/
structure RouterOut where
  output : List KV
  store : List FeedbackItem
  fbCleanedUp : Bool
  queueCleanedUp : Bool
deriving Repr, DecidableEq

/-- The per-event response object (the `match event` switch of `main`). -/
def event_payload (event : String) (blocks pre_decisions enders : List Action)
    (enderReason ctx : String) : List KV :=
  if event = "PreToolUse" then
    if !blocks.isEmpty then
      [("continue", .bool true),
       ("hookSpecificOutput", .dict
         [("hookEventName", .str "PreToolUse"),
          ("permissionDecision", .str "deny"),
          ("permissionDecisionReason",
            .str (reason_from_blocks event blocks))])]
    else if !enders.isEmpty then
      [("continue", .bool false), ("stopReason", .str enderReason)]
    else
      match pre_decisions with
      | d :: _ =>
          odSet "hookSpecificOutput" (.dict
            [("hookEventName", .str "PreToolUse"),
             ("permissionDecision", .str (d.permission_decision.getD "")),
             ("permissionDecisionReason",
               .str (d.permission_decision_reason.getD ""))])
            [("continue", .bool true)]
      | [] =>
          if ctx = "" then [("continue", .bool true)]
          else odSet "hookSpecificOutput" (.dict
            [("hookEventName", .str "PreToolUse"),
             ("permissionDecision", .str "allow"),
             ("permissionDecisionReason", .str ctx)])
            [("continue", .bool true)]
  else if event = "PostToolUse" then
    if !blocks.isEmpty then
      [("decision", .str "block"),
       ("reason", .str (reason_from_blocks event blocks))]
    else if ctx = "" then [("continue", .bool true)]
    else odSet "hookSpecificOutput" (.dict
      [("hookEventName", .str "PostToolUse"),
       ("additionalContext", .str ctx)]) [("continue", .bool true)]
  else if event = "UserPromptSubmit" then
    if !blocks.isEmpty then
      [("decision", .str "block"),
       ("reason", .str (reason_from_blocks event blocks))]
    else if ctx = "" then [("continue", .bool true)]
    else odSet "hookSpecificOutput" (.dict
      [("hookEventName", .str "UserPromptSubmit"),
       ("additionalContext", .str ctx)]) [("continue", .bool true)]
  else if event = "Stop" ∨ event = "SubagentStop" ∨ event = "PreCompact" then
    if !blocks.isEmpty then
      [("decision", .str "block"),
       ("reason", .str (reason_from_blocks event blocks))]
    else if ctx = "" then [("continue", .bool true)]
    else odSet "hookSpecificOutput" (.dict
      [("hookEventName", .str event),
       ("additionalContext", .str ctx)]) [("continue", .bool true)]
  else if event = "SessionStart" then
    if !blocks.isEmpty then
      [("continue", .bool false),
       ("stopReason", .str (reason_from_blocks event blocks))]
    else if !enders.isEmpty then
      [("continue", .bool false), ("stopReason", .str enderReason)]
    else if ctx = "" then [("continue", .bool true)]
    else odSet "hookSpecificOutput" (.dict
      [("hookEventName", .str "SessionStart"),
       ("additionalContext", .str ctx)]) [("continue", .bool true)]
  else if event = "SessionEnd" ∨ event = "Notification" then
    if ctx = "" then [("continue", .bool true)]
    else odSet "hookSpecificOutput" (.dict
      [("hookEventName", .str event),
       ("additionalContext", .str ctx)]) [("continue", .bool true)]
  else [("continue", .bool true)]

/-- The common optional fields appended to every response object. -/
def attach_common (suppress : Bool) (sys_msgs : List String)
    (payload_out : List KV) : List KV :=
  let withSuppress :=
    if suppress then odSet "suppressOutput" (.bool true) payload_out
    else payload_out
  if !sys_msgs.isEmpty then
    odSet "systemMessage" (.str (String.intercalate "\n" sys_msgs))
      withSuppress
  else withSuppress

/-- The event switch and response assembly of `main` (router lines 266-480),
from the collected `results` to the printed JSON object. -/
def router_decide (henv : HashEnv) (now : Int) (event : String)
    (results : List Action) (block_on : List Value)
    (st : List FeedbackItem) : RouterOut :=
  let blocks := results.filter (fun a => a.block || matches_policy block_on a)
  let adds0 := results.filter (fun a =>
    optStrTruthy a.add_context && !a.block && !matches_policy block_on a)
  let pre_decisions := results.filter
    (fun a => optStrTruthy a.permission_decision)
  let enders := results.filter (fun a => a.end_turn)
  let suppress_output := results.any (fun a => a.suppress_output.getD false)
  let sys_msgs := results.filterMap (fun a =>
    match a.system_message with
    | some m => if pyStrip m = "" then none else some (pyStrip m)
    | none => none)
  let dedup := if event = "PostToolUse" then dedupeAdds henv now adds0 st
    else (adds0, st)
  let adds := dedup.1
  let st1 := dedup.2
  let enderReason := (enders.filterMap (fun a =>
    match a.reason with
    | some r => if r ≠ "" then some r else none
    | none => none)).headD "Requested stop"
  let ctx := merged_context adds
  let payload_out :=
    event_payload event blocks pre_decisions enders enderReason ctx
  let isSE := event = "SessionEnd"
  { output := attach_common suppress_output sys_msgs payload_out,
    store := if isSE then [] else st1,
    fbCleanedUp := isSE, queueCleanedUp := isSE }

/-- `Value` to optional string for the background-feedback conversion;
non-string structured fields fall out of every downstream string check. -/
def vAsStrOpt : Value → Option String
  | .str s => some s
  | _ => none

/-- `main` from the `select_tasks` call onward (router lines 232-480): with
no selected tasks it prints `continue: true` and returns at once — before
background processing and before the SessionEnd cleanup calls; otherwise it
runs the batch, appends harvested background feedback and enters the
decision section. -/
def main_after_select (henv : HashEnv) (now : Int) (renv : RunEnv)
    (event : String) (tasks : List RDesc) (payload : Value)
    (bgFeedback : List FbData) (block_on : List Value)
    (st : List FeedbackItem) : RouterOut :=
  if tasks.isEmpty then
    { output := [("continue", .bool true)], store := st,
      fbCleanedUp := false, queueCleanedUp := false }
  else
    let results := run_parallel renv tasks payload
    let results := results ++ bgFeedback.map (fun f =>
      { add_context := vAsStrOpt f.content,
        severity := vAsStrOpt f.severity,
        category := vAsStrOpt f.category,
        task_id := some f.task_id : Action })
    router_decide henv now event results block_on st


/-- The row `record_feedback` inserts on a first occurrence. -/
def freshFeedbackRow (henv : HashEnv) (content task_id : String)
    (fp sev cat : Option String) (strat : String) (now : Int) :
    FeedbackItem :=
  { issue_id := issueIdOf henv task_id fp (pyStrip content),
    instance_id := henv.contentHash (pyStrip content),
    content := pyStrip content, task_id := task_id, severity := sev,
    category := cat, file_path := fp, strategy := strat,
    first_seen := now, last_seen := now, occurrence_count := 1,
    times_shown := 0 }


/-- Concrete outcome used by the C5 witness. -/
def c5act : Action :=
  { block := false, severity := some "error", category := some "security",
    add_context := some "weak cipher", task_id := some "sec" }


/-! ## ConfigResolver (src/xenohooks/common/config.py)

Configuration documents are `Value` dicts.  Insertion-ordered dict
semantics (`odSet`/`odPop`/`odGet`) model CPython dicts; `yaml.safe_load`,
`json.load`, the filesystem and path resolution are environment parameters
(`ConfigEnv`). -/

/-- `_task_key`: explicit stripped `id`, else stripped `ref`, else the
stripped literal string, else `""`. -/
def task_key (entry : Value) : String :=
  match entry with
  | .dict kvs =>
      (match odGet "id" kvs with
      | some (.str tid) =>
          if pyStrip tid ≠ "" then pyStrip tid
          else
            match odGet "ref" kvs with
            | some (.str r) => if pyStrip r ≠ "" then pyStrip r else ""
            | _ => ""
      | _ =>
          match odGet "ref" kvs with
          | some (.str r) => if pyStrip r ≠ "" then pyStrip r else ""
          | _ => "")
  | .str s => if pyStrip s ≠ "" then pyStrip s else ""
  | _ => ""

/-- A task entry flagged `disabled: true` (checked with `is True`). -/
def is_disabled (entry : Value) : Bool :=
  match entry with
  | .dict kvs => odGet "disabled" kvs == some (.bool true)
  | _ => false

/-- `_normalize_event_section`: list or dict-with-task-list shapes. -/
def normalize_event_section (sec : Value) : List KV :=
  match sec with
  | .list l => [("tasks", .list l)]
  | .dict kvs =>
      match odGet "tasks" kvs with
      | some (.list ts) =>
          (kvs.filter (fun p => p.1 != "tasks")) ++ [("tasks", .list ts)]
      | _ => [("tasks", .list [])]
  | _ => [("tasks", .list [])]

/-- The task list of a normalized section. -/
def sec_tasks (ns : List KV) : List Value :=
  match odGet "tasks" ns with
  | some (.list ts) => ts
  | _ => []

/-- Seeding step over A's tasks (`ordered[k] = ent`, skipping empty keys). -/
def seedAddT (d : List KV) (ent : Value) : List KV :=
  let k := task_key ent
  if k = "" then d else odSet k ent d

/-- Override step over B's tasks: `disabled` pops the key, otherwise the
entry replaces (in place) or appends. -/
def applyAddT (d : List KV) (ent : Value) : List KV :=
  let k := task_key ent
  if k = "" then d
  else if is_disabled ent then odPop k d
  else odSet k ent d

/-- The `for rid in removes` loop: pop each string id that is present. -/
def applyRemList (d : List KV) (rs : List Value) : List KV :=
  rs.foldl (fun d r =>
    match r with
    | .str s => if containsKey s d then odPop s d else d
    | _ => d) d

/-- Application of B's `remove` list to the inherited ordered keys. -/
def applyRemovesT (d : List KV) (sb : List KV) : List KV :=
  match odGet "remove" sb with
  | some (.list rs) => applyRemList d rs
  | _ => d

/-- The string entries of a normalized section's `remove` list (the only
ones the remove loop acts on). -/
def removeStrs (ns : List KV) : List String :=
  match odGet "remove" ns with
  | some (.list rs) =>
      rs.filterMap (fun r => match r with | .str s => some s | _ => none)
  | _ => []

/-- The string entries of a raw remove list. -/
def strsOf (rs : List Value) : List String :=
  rs.filterMap (fun r => match r with | .str s => some s | _ => none)

/-- Boolean key-distinctness. -/
def nodupKeysB : List String → Bool
  | [] => true
  | k :: ks => !ks.contains k && nodupKeysB ks

mutual

/-- Well-formedness of a Python value: every dict has distinct keys (true
of every value a Python program can build). -/
def vwf : Value → Bool
  | .null => true
  | .bool _ => true
  | .str _ => true
  | .int _ => true
  | .list xs => vwfL xs
  | .dict kvs => nodupKeysB (kvs.map Prod.fst) && vwfKV kvs

def vwfL : List Value → Bool
  | [] => true
  | x :: xs => vwf x && vwfL xs

def vwfKV : List KV → Bool
  | [] => true
  | (_, v) :: xs => vwf v && vwfKV xs

end

/-- Invariant of the ordered task dict built by section merging: keys are
distinct, and every pair holds a non-empty key equal to its entry's task
key. -/
def WfD (d : List KV) : Prop :=
  nodupKeysB (d.map Prod.fst) = true ∧
    ∀ p ∈ d, p.1 = task_key p.2 ∧ p.1 ≠ ""

/-- `_merge_event_sections`. -/
def merge_event_sections (a b : Value) : Value :=
  let sa := normalize_event_section a
  let sb := normalize_event_section b
  let seeded := (sec_tasks sa).foldl seedAddT []
  let removed := applyRemovesT seeded sb
  let applied := (sec_tasks sb).foldl applyAddT removed
  .dict ((sa.filter (fun p => p.1 != "tasks")) ++
    [("tasks", .list (applied.map (fun p => p.2)))])

mutual

/-- `_merge`: later scalars/lists replace, nested dicts merge recursively. -/
def mergeV (a b : Value) : Value :=
  match a, b with
  | .dict xa, .dict xb => .dict (mergeKVs xa xb)
  | _, _ => b

/-- The `for k, v in b.items()` loop of `_merge` over the evolving `out`. -/
def mergeKVs (xa : List KV) : List KV → List KV
  | [] => xa
  | (k, v) :: rest => mergeKVs (mergeStepKV xa k v) rest

/-- One assignment of the `_merge` loop. -/
def mergeStepKV (xa : List KV) (k : String) (v : Value) : List KV :=
  match odGet k xa, v with
  | some (.dict da), .dict db => odSet k (.dict (mergeKVs da db)) xa
  | _, _ => odSet k v xa

end

/-- `_EVENT_KEYS`. -/
def EVENT_KEYS : List String :=
  ["PreToolUse", "PostToolUse", "Notification", "UserPromptSubmit", "Stop",
   "SubagentStop", "PreCompact", "SessionStart", "SessionEnd"]

/-- `_merge_configs`. -/
def merge_configs (a b : List KV) : List KV :=
  b.foldl (fun out kv =>
    if EVENT_KEYS.contains kv.1 then
      odSet kv.1 (merge_event_sections
        ((odGet kv.1 out).getD (.dict [("tasks", .list [])])) kv.2) out
    else
      match odGet kv.1 out, kv.2 with
      | some (.dict da), .dict db =>
          odSet kv.1 (mergeV (.dict da) (.dict db)) out
      | _, _ => odSet kv.1 kv.2 out) a


/-- Environment of one configuration load: `CLAUDE_HOOKS_CONFIG`, the
working directory, file existence, the two parsers (returning the parsed
dict, or `none` on a missing file, a parse error or a non-dict document),
packaged example lookup and `(base_dir / p).resolve()`. -/
structure ConfigEnv where
  envConfig : Option String
  cwd : String
  pathExists : String → Bool
  parseYaml : String → Option (List KV)
  parseJson : String → Option (List KV)
  loadExample : String → Option (List KV)
  joinResolve : String → String → String

/-- Path join for the fixed candidate paths. -/
def pathJoin (a b : String) : String := a ++ "/" ++ b

/-- Boolean string-prefix test. -/
def strStarts (pre s : String) : Bool :=
  decide (s.toList.take pre.toList.length = pre.toList)

/-- `Path(p).parent` as a string. -/
def pyDirname (s : String) : String :=
  (((s.toList.reverse.dropWhile (fun c => c != '/')).drop 1).reverse).asString

/-- `Path(p).suffix` (lower-cased by the caller): the final extension of the
last path component, empty when the name has no dot or only a leading
dot. -/
def pySuffix (p : String) : String :=
  let cs := (pyBasename p).toList
  if cs.contains '.' then
    let ext := ('.' :: (cs.reverse.takeWhile (fun c => c != '.')).reverse).asString
    if ext.length = cs.length then "" else ext
  else ""

/-- `_candidate_paths`. -/
def candidate_paths (env : ConfigEnv) : List String :=
  let defaults :=
    [pathJoin env.cwd "hooks.yml",
     pathJoin env.cwd "hooks.yaml",
     pathJoin (pathJoin env.cwd "config") "hooks.yml",
     pathJoin (pathJoin env.cwd "config") "hooks.yaml",
     pathJoin (pathJoin (pathJoin (pathJoin env.cwd ".claude") "hooks")
       "config") "hooks.yml",
     pathJoin env.cwd "hooks.json"]
  match env.envConfig with
  | some p => if p ≠ "" then [p] else defaults
  | none => defaults

/-- `_load_one`: load a single source (`example:name` or a file path),
returning the parsed dict (or `none`) and the origin path. -/
def load_one (env : ConfigEnv) (source : String) (base_dir : Option String) :
    Option (List KV) × Option String :=
  let source := pyStrip source
  if strStarts "example:" source then
    (env.loadExample (pyStrip (pySplit1 source).2), none)
  else
    let p :=
      match base_dir with
      | some b => if !strStarts "/" source then env.joinResolve b source
          else source
      | none => source
    if env.pathExists p then
      let sfx := pyLower (pySuffix p)
      if sfx = ".yaml" ∨ sfx = ".yml" then (env.parseYaml p, some p)
      else if sfx = ".json" then (env.parseJson p, some p)
      else
        match env.parseYaml p with
        | some d => (some d, some p)
        | none => (env.parseJson p, some p)
    else (none, some p)

/-- `_resolve_extends`, with the shared mutable `seen` set threaded through
and a fuel bound standing in for Python's (finite-filesystem) recursion
stack; real loads never exhaust it because every recursion step consumes a
fresh `seen` key. -/
def resolve_extends : Nat → ConfigEnv → List KV → Option String →
    List String → List KV × List String
  | 0, _, cfg, _, seen => (cfg.filter (fun p => p.1 != "extends"), seen)
  | fuel + 1, env, cfg, origin, seen =>
      match odGet "extends" cfg with
      | some (.list items) =>
          if items.isEmpty then
            (cfg.filter (fun p => p.1 != "extends"), seen)
          else
            let base_dir := origin.map pyDirname
            let acc := items.foldl (fun (acc : List KV × List String) raw =>
              match raw with
              | .str tok0 =>
                  let token := pyStrip tok0
                  if token = "" then acc
                  else
                    let key :=
                      match base_dir with
                      | some b =>
                          if !strStarts "example:" token then
                            env.joinResolve b token
                          else token
                      | none => token
                    if acc.2.contains key then acc
                    else
                      let seen1 := acc.2 ++ [key]
                      let r := load_one env token base_dir
                      match r.1 with
                      | some data =>
                          let child :=
                            resolve_extends fuel env data r.2 seen1
                          (merge_configs acc.1 child.1, child.2)
                      | none => (acc.1, seen1)
              | _ => acc) ([], seen)
            (merge_configs acc.1 (cfg.filter (fun p => p.1 != "extends")),
              acc.2)
      | _ => (cfg.filter (fun p => p.1 != "extends"), seen)

/-- `_DEFAULTS`. -/
def DEFAULTSv : List KV :=
  [("concurrency", .int 6),
   ("default_timeout", .int 12),
   ("timeouts", .dict []),
   ("policy", .dict
     [("missing_tool_is_warning", .bool true),
      ("treat_stderr_only_as_warning", .bool true),
      ("block_on", .list [])]),
   ("PreToolUse", .dict [("tasks", .list [])]),
   ("PostToolUse", .dict [("tasks", .list [])]),
   ("UserPromptSubmit", .dict [("tasks", .list [])]),
   ("Notification", .dict [("tasks", .list [])]),
   ("Stop", .dict [("tasks", .list [])]),
   ("SubagentStop", .dict [("tasks", .list [])]),
   ("PreCompact", .dict [("tasks", .list [])]),
   ("SessionStart", .dict [("tasks", .list [])]),
   ("SessionEnd", .dict [("tasks", .list [])])]

/-- The source list `_load_config_cached` iterates: the explicit key when
non-empty (`if key:`), else the first existing candidate path. -/
def config_sources (env : ConfigEnv) (key : Option (List String)) :
    List String :=
  let discovered :=
    match (candidate_paths env).find? env.pathExists with
    | some p => [p]
    | none => []
  match key with
  | some ts => if ts.isEmpty then discovered else ts
  | none => discovered

/-- `_load_config_cached`: fatal (`RuntimeError`) exactly when the source
list is empty; otherwise each loadable source is resolved (with `extends`)
and merged onto the defaults, sources that fail to load being skipped. -/
def load_config_cached (fuel : Nat) (env : ConfigEnv)
    (key : Option (List String)) : Except String (List KV) :=
  let sources := config_sources env key
  if sources.isEmpty then
    .error "No hooks config found. Provide --config or add hooks.yml in your project."
  else
    .ok ((sources.foldl (fun (acc : List KV × List String) src =>
      let r := load_one env src none
      match r.1 with
      | some data =>
          let rr := resolve_extends fuel env data r.2 acc.2
          (merge_configs acc.1 rr.1, rr.2)
      | none => acc) (DEFAULTSv, [])).1)

/-- Config environment of the C2 counterexample: every candidate path
exists and both parsers fail on every file. -/
def c2env : ConfigEnv :=
  { envConfig := none, cwd := "w", pathExists := fun _ => true,
    parseYaml := fun _ => none, parseJson := fun _ => none,
    loadExample := fun _ => none, joinResolve := pathJoin }


/-- Concrete task entries used by the C4 witness. -/
def entA : Value := .dict [("id", .str "A")]
def entB : Value := .dict [("id", .str "B")]
def entC : Value := .dict [("id", .str "C")]
def entB' : Value := .dict [("id", .str "B"), ("timeout", .int 5)]

/-- The value a key of the accumulator receives in a self-merge step of
`_merge_configs` (the accumulator still holds the original value). -/
def selfStep (k : String) (v : Value) : Value :=
  if EVENT_KEYS.contains k then merge_event_sections v v
  else match v with
    | .dict d => mergeV (.dict d) (.dict d)
    | _ => v

/-- A config whose PostToolUse section removes a task id that its own task
list still provides (with a disabled duplicate in between). -/
def c8cfg : List KV :=
  [("PostToolUse", .dict
    [("tasks", .list
      [.dict [("id", .str "A")],
       .dict [("id", .str "B"), ("disabled", .bool true)],
       .dict [("id", .str "B")]]),
     ("remove", .list [.str "A"])])]

/-- A config where every event section has no disabled task entry. -/
def c8good : List KV :=
  [("PostToolUse", .dict
    [("tasks", .list
      [.dict [("id", .str "A")], .dict [("id", .str "B")]]),
     ("remove", .list [.str "C"])]),
   ("timeout_seconds", .int 30)]

/-! ## Properties of the claims -/

theorem mem_insV {α : Type} {le : α → α → Bool} {x a : α} {l : List α} :
    a ∈ insV le x l ↔ a = x ∨ a ∈ l := by
  induction l with
  | nil => simp [insV]
  | cons y ys ih =>
      by_cases h : le x y = true
      · simp [insV, h]
      · simp [insV, h, ih]
        tauto

theorem mem_sortByB {α : Type} {le : α → α → Bool} {a : α} {l : List α} :
    a ∈ sortByB le l ↔ a ∈ l := by
  induction l with
  | nil => simp [sortByB]
  | cons x xs ih => simp [sortByB, mem_insV, ih]

/-! ### Claims C9 and C3 -/

theorem mem_cleanup_expired {now w : Int} {st : List FeedbackItem}
    {r : FeedbackItem} (h : r ∈ cleanup_expired now w st) :
    now - w ≤ r.last_seen := by
  simp only [cleanup_expired, List.mem_filter, decide_eq_true_eq] at h
  exact h.2

/-- C9: a `record_feedback` call whose content is empty or whitespace-only
returns the synthetic item with issue id "empty" and strategy "always"
(so `should_show_feedback` on it is true) and leaves the persisted store
entirely unchanged. -/
theorem record_feedback_empty_content_frame (henv : HashEnv)
    (content task_id : String) (fp sev cat : Option String) (strat : String)
    (now : Int) (st : List FeedbackItem) (h : pyStrip content = "") :
    (record_feedback henv content task_id fp sev cat strat now st).2 = st ∧
    (record_feedback henv content task_id fp sev cat strat now st).1.issue_id
      = "empty" ∧
    (record_feedback henv content task_id fp sev cat strat now st).1.strategy
      = "always" ∧
    should_show_feedback
      (record_feedback henv content task_id fp sev cat strat now st).1
      = true := by
  simp [record_feedback, h, should_show_feedback]


theorem record_feedback_empty_content_frame_witness :
    pyStrip " \t" = "" ∧
    ((record_feedback hashEnvEx " \t" "t" none none none "show_once" 5
        [default]).2 = [default] ∧
      (record_feedback hashEnvEx " \t" "t" none none none "show_once" 5
        [default]).1.issue_id = "empty" ∧
      (record_feedback hashEnvEx " \t" "t" none none none "show_once" 5
        [default]).1.strategy = "always" ∧
      should_show_feedback
        (record_feedback hashEnvEx " \t" "t" none none none "show_once" 5
          [default]).1 = true) :=
  ⟨by decide,
    record_feedback_empty_content_frame hashEnvEx " \t" "t" none none none
      "show_once" 5 [default] (by decide)⟩


/-- C3 counterexample: `mark_shown` is a store write, yet it performs no TTL
purge.  At current time 1000 the row with `last_seen = 0` is far older than
the 300-second window, but `mark_shown` leaves it in the store (bumping its
`times_shown`), contradicting the claim that every store-touching operation
purges expired rows before its write takes effect. -/
theorem mark_shown_no_purge_cex :
    mark_shown "i1" [c3Row] = [{ c3Row with times_shown := 1 }] ∧
    c3Row.last_seen < 1000 - DEFAULT_DEDUP_WINDOW := by
  constructor
  · decide
  · decide

/-- C3 amended: `record_feedback` (on non-empty content),
`get_feedback_summary` and `get_deferred_feedback` purge rows older than the
TTL window before their read/write takes effect (their resulting stores and
result rows contain no expired row), but `mark_shown` performs no purge: it
maps over the store in place, preserving every row's `last_seen` and the row
count. -/
theorem feedback_ttl_purge_amended (henv : HashEnv)
    (content task_id : String) (fp sev cat : Option String) (strat : String)
    (now minOcc : Int) (iid : String) (st : List FeedbackItem)
    (h : pyStrip content ≠ "") :
    (∀ r ∈ (record_feedback henv content task_id fp sev cat strat now st).2,
        now - DEFAULT_DEDUP_WINDOW ≤ r.last_seen) ∧
    (∀ r ∈ (get_feedback_summary minOcc now st).1,
        now - DEFAULT_DEDUP_WINDOW ≤ r.last_seen) ∧
    (∀ r ∈ (get_feedback_summary minOcc now st).2,
        now - DEFAULT_DEDUP_WINDOW ≤ r.last_seen) ∧
    (∀ r ∈ (get_deferred_feedback now st).1,
        now - DEFAULT_DEDUP_WINDOW ≤ r.last_seen) ∧
    (∀ r ∈ (get_deferred_feedback now st).2,
        now - DEFAULT_DEDUP_WINDOW ≤ r.last_seen) ∧
    (mark_shown iid st).map FeedbackItem.last_seen
      = st.map FeedbackItem.last_seen := by
  refine ⟨?_, ?_, ?_, ?_, ?_, ?_⟩
  · intro r hr
    simp only [record_feedback, if_neg h] at hr
    set st1 := cleanup_expired now DEFAULT_DEDUP_WINDOW st with hst1
    rcases hfind : st1.find? (fun r => r.issue_id ==
        issueIdOf henv task_id fp (pyStrip content)) with _ | row
    · rw [hfind] at hr
      simp only [List.mem_append, List.mem_singleton] at hr
      rcases hr with hr | hr
      · exact mem_cleanup_expired hr
      · subst hr
        simp only [DEFAULT_DEDUP_WINDOW]
        omega
    · rw [hfind] at hr
      simp only [List.mem_map] at hr
      obtain ⟨r0, hr0, hmap⟩ := hr
      by_cases hid : (r0.issue_id ==
          issueIdOf henv task_id fp (pyStrip content)) = true
      · rw [if_pos hid] at hmap
        subst hmap
        simp only [DEFAULT_DEDUP_WINDOW]
        omega
      · rw [if_neg hid] at hmap
        subst hmap
        exact mem_cleanup_expired hr0
  · intro r hr
    simp only [get_feedback_summary, mem_sortByB, List.mem_filter] at hr
    exact mem_cleanup_expired hr.1
  · intro r hr
    exact mem_cleanup_expired hr
  · intro r hr
    simp only [get_deferred_feedback, mem_sortByB, List.mem_filter] at hr
    exact mem_cleanup_expired hr.1
  · intro r hr
    exact mem_cleanup_expired hr
  · simp only [mark_shown, List.map_map]
    apply List.map_congr_left
    intro r _
    by_cases hid : r.issue_id = iid <;> simp [hid]

theorem feedback_ttl_purge_amended_witness :
    pyStrip "x" ≠ "" ∧
    ((∀ r ∈ (record_feedback hashEnvEx "x" "t" none none none "show_once" 5
        []).2, (5 : Int) - DEFAULT_DEDUP_WINDOW ≤ r.last_seen) ∧
      (∀ r ∈ (get_feedback_summary 2 5 []).1,
        (5 : Int) - DEFAULT_DEDUP_WINDOW ≤ r.last_seen) ∧
      (∀ r ∈ (get_feedback_summary 2 5 []).2,
        (5 : Int) - DEFAULT_DEDUP_WINDOW ≤ r.last_seen) ∧
      (∀ r ∈ (get_deferred_feedback 5 []).1,
        (5 : Int) - DEFAULT_DEDUP_WINDOW ≤ r.last_seen) ∧
      (∀ r ∈ (get_deferred_feedback 5 []).2,
        (5 : Int) - DEFAULT_DEDUP_WINDOW ≤ r.last_seen) ∧
      (mark_shown "i" []).map FeedbackItem.last_seen
        = ([] : List FeedbackItem).map FeedbackItem.last_seen) :=
  ⟨by decide,
    feedback_ttl_purge_amended hashEnvEx "x" "t" none none none "show_once"
      5 2 "i" [] (by decide)⟩

/-! ### Claim C10 -/

theorem foldl_consume (l : List BTask) (cur : List BTask) :
    l.foldl (fun c t => mark_task_consumed t.task_id c) cur
      = cur.filter (fun r => l.all (fun t => r.task_id != t.task_id)) := by
  induction l generalizing cur with
  | nil => simp
  | cons t rest ih =>
      rw [List.foldl_cons, ih]
      simp only [mark_task_consumed, List.filter_filter, List.all_cons]
      apply List.filter_congr
      intro r _
      rw [Bool.and_comm]

theorem harvestGo_ok (jp : String → Option Value) (l : List BTask)
    (acc : List FbData) (cur : List BTask)
    (h : ∀ t ∈ l, ∃ fb, parse_task_output jp t = .ok fb) :
    harvestGo jp l acc cur =
      .ok (acc ++ l.filterMap (fun t => ((parse_task_output jp t).toOption).join),
        l.foldl (fun c t => mark_task_consumed t.task_id c) cur) := by
  induction l generalizing acc cur with
  | nil => simp [harvestGo]
  | cons t rest ih =>
      obtain ⟨fb, hfb⟩ := h t (List.mem_cons_self t rest)
      have hrest : ∀ x ∈ rest, ∃ fb, parse_task_output jp x = .ok fb :=
        fun x hx => h x (List.mem_cons_of_mem t hx)
      simp only [harvestGo, hfb, ih _ _ hrest, List.filterMap_cons,
        Except.toOption, Option.join, List.foldl_cons]
      cases fb <;> simp

/-- C10 amended: a harvest pass fetches at most 10 completed/failed rows; if
every fetched row's output parses without raising, every fetched row is
deleted from the queue and the harvested feedback is exactly the parses'
non-empty results — in particular a fetched task with exit code 0 and empty
stdout parses to no feedback at all, yet is consumed and deleted.  (Without
the parse-success proviso the pass can abort early, see the
counterexample.) -/
theorem process_completed_tasks_amended (jp : String → Option Value)
    (st : List BTask)
    (h : ∀ t ∈ get_completed_tasks 10 st, ∃ fb, parse_task_output jp t = .ok fb) :
    process_completed_tasks jp st =
      .ok ((get_completed_tasks 10 st).filterMap
            (fun t => ((parse_task_output jp t).toOption).join),
          st.filter (fun r => (get_completed_tasks 10 st).all
            (fun t => r.task_id != t.task_id))) ∧
    (get_completed_tasks 10 st).length ≤ 10 ∧
    (∀ t ∈ get_completed_tasks 10 st, t.exit_code = some 0 →
      (t.stdout = none ∨ t.stdout = some "") →
      parse_task_output jp t = .ok none) := by
  refine ⟨?_, ?_, ?_⟩
  · rw [process_completed_tasks, harvestGo_ok jp _ [] st h, foldl_consume]
    simp
  · exact List.length_take_le 10 _
  · intro t _ hexit hstdout
    rcases hstdout with hs | hs <;> simp [parse_task_output, hs, hexit]


theorem process_completed_tasks_amended_witness :
    (∀ t ∈ get_completed_tasks 10 [harvestWitTask],
      ∃ fb, parse_task_output (fun _ => none) t = .ok fb) ∧
    (process_completed_tasks (fun _ => none) [harvestWitTask] =
      .ok ((get_completed_tasks 10 [harvestWitTask]).filterMap
            (fun t => ((parse_task_output (fun _ => none) t).toOption).join),
          [harvestWitTask].filter
            (fun r => (get_completed_tasks 10 [harvestWitTask]).all
              (fun t => r.task_id != t.task_id))) ∧
      (get_completed_tasks 10 [harvestWitTask]).length ≤ 10 ∧
      (∀ t ∈ get_completed_tasks 10 [harvestWitTask], t.exit_code = some 0 →
        (t.stdout = none ∨ t.stdout = some "") →
        parse_task_output (fun _ => none) t = .ok none)) :=
  by
  have h : ∀ t ∈ get_completed_tasks 10 [harvestWitTask],
      ∃ fb, parse_task_output (fun _ => none) t = .ok fb := by
    intro t ht
    have e : get_completed_tasks 10 [harvestWitTask] = [harvestWitTask] := by
      decide
    rw [e] at ht
    simp only [List.mem_singleton] at ht
    subst ht
    exact ⟨none, by decide⟩
  exact ⟨h, process_completed_tasks_amended (fun _ => none) [harvestWitTask] h⟩



/-- C10 counterexample: a fetched completed task whose stdout is the JSON
object with a feedback list whose first element is the number 0 makes
`_parse_task_output` raise an uncaught `AttributeError`
(`first.get` on a non-dict), so the pass aborts and the fetched row is NOT
deleted from the queue — refuting the claim that every fetched row is
deleted. -/
theorem process_completed_tasks_cex :
    get_completed_tasks 10 [c10Task] = [c10Task] ∧
    process_completed_tasks c10Json [c10Task] =
      .error ("AttributeError: feedback element has no attribute get",
        [c10Task]) := by
  constructor
  · decide
  · decide

/-! ### Claim C7 -/

theorem insV_perm {α : Type} (le : α → α → Bool) (x : α) (l : List α) :
    (insV le x l).Perm (x :: l) := by
  induction l with
  | nil => exact List.Perm.refl _
  | cons y ys ih =>
      unfold insV
      by_cases h : le x y = true
      · simp [h]
      · simp only [h, if_false]
        exact (ih.cons y).trans (List.Perm.swap x y ys)

theorem sortByB_perm {α : Type} (le : α → α → Bool) (l : List α) :
    (sortByB le l).Perm l := by
  induction l with
  | nil => exact List.Perm.refl _
  | cons x xs ih => exact (insV_perm le x (sortByB le xs)).trans (ih.cons x)

theorem applyFields_task_id (u : TaskUpdate) (r : BTask) :
    (applyFields u r).task_id = r.task_id := rfl

theorem find?_cons_eq {α : Type} (p : α → Bool) (a : α) (l : List α) :
    (a :: l).find? p = if p a = true then some a else l.find? p := by
  by_cases h : p a = true
  · rw [if_pos h]
    exact List.find?_cons_of_pos l h
  · rw [if_neg h]
    exact List.find?_cons_of_neg l (by simpa using h)

theorem find?_update_task_status (tid : String) (u : TaskUpdate)
    (l : List BTask) :
    (update_task_status tid u l).find? (fun r => r.task_id == tid)
      = (l.find? (fun r => r.task_id == tid)).map (applyFields u) := by
  induction l with
  | nil => simp [update_task_status]
  | cons r rest ih =>
      by_cases h : (r.task_id == tid) = true
      · simp only [update_task_status, List.map_cons, if_pos h]
        rw [find?_cons_eq, find?_cons_eq]
        have hpa : ((applyFields u r).task_id == tid) = true := by
          rw [applyFields_task_id]
          exact h
        rw [if_pos hpa, if_pos h]
        simp
      · simp only [update_task_status, List.map_cons, if_neg h]
        rw [find?_cons_eq, find?_cons_eq, if_neg (by simpa using h),
          if_neg (by simpa using h)]
        simpa [update_task_status] using ih

theorem find?_update_task_status_ne (xid tid : String) (hne : xid ≠ tid)
    (u : TaskUpdate) (l : List BTask) :
    (update_task_status xid u l).find? (fun r => r.task_id == tid)
      = l.find? (fun r => r.task_id == tid) := by
  induction l with
  | nil => simp [update_task_status]
  | cons r rest ih =>
      by_cases h : (r.task_id == xid) = true
      · have hr : r.task_id = xid := by simpa using h
        have hpr : ¬ (r.task_id == tid) = true := by
          simp only [beq_iff_eq, hr]
          exact hne
        have hpa : ¬ ((applyFields u r).task_id == tid) = true := by
          rw [applyFields_task_id]
          exact hpr
        simp only [update_task_status, List.map_cons, if_pos h]
        rw [find?_cons_eq, find?_cons_eq, if_neg hpa, if_neg hpr]
        simpa [update_task_status] using ih
      · simp only [update_task_status, List.map_cons, if_neg h]
        rw [find?_cons_eq, find?_cons_eq]
        by_cases hp : (r.task_id == tid) = true
        · rw [if_pos hp, if_pos hp]
        · rw [if_neg hp, if_neg hp]
          simpa [update_task_status] using ih

theorem pollStep_snd (env : PollEnv) (acc : List String × List BTask)
    (x : BTask) :
    (pollStep env acc x).2 = acc.2 ∨
      ∃ u, (pollStep env acc x).2 = update_task_status x.task_id u acc.2 := by
  unfold pollStep
  split
  · exact Or.inr ⟨_, rfl⟩
  · split
    · split
      · split
        · split
          · exact Or.inl rfl
          · exact Or.inr ⟨_, rfl⟩
        · exact Or.inl rfl
      · exact Or.inl rfl
    · exact Or.inl rfl

theorem find?_foldl_pollStep (env : PollEnv) (tid : String) (l : List BTask)
    (acc : List String × List BTask) (h : ∀ x ∈ l, x.task_id ≠ tid) :
    ((l.foldl (pollStep env) acc).2).find? (fun r => r.task_id == tid)
      = (acc.2).find? (fun r => r.task_id == tid) := by
  induction l generalizing acc with
  | nil => rfl
  | cons x rest ih =>
      rw [List.foldl_cons,
        ih (pollStep env acc x) (fun y hy => h y (List.mem_cons_of_mem x hy))]
      rcases pollStep_snd env acc x with heq | ⟨u, heq⟩
      · rw [heq]
      · rw [heq,
          find?_update_task_status_ne x.task_id tid
            (h x (List.mem_cons_self x rest)) u acc.2]

theorem find?_id_of_nodup (l : List BTask) (t : BTask)
    (hnd : (l.map BTask.task_id).Nodup) (ht : t ∈ l) :
    l.find? (fun r => r.task_id == t.task_id) = some t := by
  induction l with
  | nil => cases ht
  | cons r rest ih =>
      rw [List.map_cons, List.nodup_cons] at hnd
      rcases List.mem_cons.mp ht with h | h
      · subst h
        rw [find?_cons_eq, if_pos (by simp)]
      · have hr : ¬ (r.task_id == t.task_id) = true := by
          simp only [beq_iff_eq]
          intro hc
          exact hnd.1 (hc ▸ List.mem_map_of_mem BTask.task_id h)
        rw [find?_cons_eq, if_neg hr]
        exact ih hnd.2 h

/-- C7: a running background task within its timeout, whose recorded pid no
longer exists, is reclassified by the poll from the captured output files:
completed exactly when the captured stderr is empty, failed otherwise, with
the synthesized exit code 0 resp. 1. -/
theorem check_running_tasks_dead_pid (env : PollEnv) (st : List BTask)
    (t : BTask) (md : List KV) (pv : Value)
    (hnd : (st.map BTask.task_id).Nodup) (ht : t ∈ st)
    (hrun : t.status = "running") (hto : timedOutB env t = false)
    (hmd : t.metadata = some md) (hck : containsKey "pid" md = true)
    (hpv : odGet "pid" md = some pv) (halive : pidAliveB env pv = false) :
    ∃ r ∈ (check_running_tasks env st).2,
      r.task_id = t.task_id ∧
      r.stdout = some (readOut env md "stdout_file") ∧
      r.stderr = some (readOut env md "stderr_file") ∧
      (r.status = "completed" ↔ readOut env md "stderr_file" = "") ∧
      (r.status = "completed" ∨ r.status = "failed") ∧
      r.exit_code = some (if readOut env md "stderr_file" = "" then 0 else 1) := by
  have hmemrun : t ∈ get_running_tasks st := by
    rw [get_running_tasks]
    rw [mem_sortByB]
    exact List.mem_filter.mpr ⟨ht, by simp [hrun]⟩
  have hrunnd : ((get_running_tasks st).map BTask.task_id).Nodup := by
    have hperm :=
      ((sortByB_perm startedLE
        (st.filter (fun x => x.status == "running"))).map BTask.task_id)
    have hfil : ((st.filter (fun x => x.status == "running")).map
        BTask.task_id).Nodup :=
      List.Nodup.sublist ((List.filter_sublist st).map BTask.task_id) hnd
    rw [get_running_tasks]
    exact (List.Perm.nodup_iff hperm).mpr hfil
  obtain ⟨l1, l2, hdec⟩ := List.append_of_mem hmemrun
  rw [hdec] at hrunnd
  simp only [List.map_append, List.map_cons, List.nodup_append,
    List.nodup_cons] at hrunnd
  have h1 : ∀ x ∈ l1, x.task_id ≠ t.task_id := by
    intro x hx hc
    exact hrunnd.2.2 (List.mem_map_of_mem BTask.task_id hx)
      (by rw [hc]; exact List.mem_cons_self _ _)
  have h2 : ∀ x ∈ l2, x.task_id ≠ t.task_id := by
    intro x hx hc
    exact hrunnd.2.1.1 (hc ▸ List.mem_map_of_mem BTask.task_id hx)
  set se := readOut env md "stderr_file" with hse
  set so := readOut env md "stdout_file" with hso
  set u : TaskUpdate :=
    { status := some (if (if se = "" then (0 : Int) else 1) = 0
        then "completed" else "failed"),
      completed_at := some env.now,
      exit_code := some (if se = "" then (0 : Int) else 1),
      stdout := some so, stderr := some se } with hu
  have hstep : ∀ acc : List String × List BTask,
      (pollStep env acc t).2 = update_task_status t.task_id u acc.2 := by
    intro acc
    unfold pollStep
    simp only [hto, Bool.false_eq_true, if_false, hmd, hck, if_true, hpv,
      halive, hu]
  have hfold : (check_running_tasks env st).2.find?
      (fun r => r.task_id == t.task_id) = some (applyFields u t) := by
    rw [check_running_tasks, hdec, List.foldl_append, List.foldl_cons]
    rw [find?_foldl_pollStep env t.task_id l2 _ h2]
    rw [hstep]
    rw [find?_update_task_status]
    rw [find?_foldl_pollStep env t.task_id l1 _ h1]
    rw [find?_id_of_nodup st t hnd ht]
    rfl
  refine ⟨applyFields u t, List.mem_of_find?_eq_some hfold, rfl, rfl, rfl,
    ?_, ?_, rfl⟩
  · by_cases hs : se = "" <;> simp [applyFields, hu, hs]
  · by_cases hs : se = "" <;> simp [applyFields, hu, hs]

theorem check_running_tasks_dead_pid_witness :
    (([c7task].map BTask.task_id).Nodup ∧ c7task ∈ [c7task] ∧
      c7task.status = "running" ∧ timedOutB c7env c7task = false ∧
      c7task.metadata = some c7md ∧ containsKey "pid" c7md = true ∧
      odGet "pid" c7md = some (.int 42) ∧
      pidAliveB c7env (.int 42) = false) ∧
    (∃ r ∈ (check_running_tasks c7env [c7task]).2,
      r.task_id = c7task.task_id ∧
      r.stdout = some (readOut c7env c7md "stdout_file") ∧
      r.stderr = some (readOut c7env c7md "stderr_file") ∧
      (r.status = "completed" ↔ readOut c7env c7md "stderr_file" = "") ∧
      (r.status = "completed" ∨ r.status = "failed") ∧
      r.exit_code = some
        (if readOut c7env c7md "stderr_file" = "" then 0 else 1)) :=
  ⟨⟨by decide, by decide, rfl, by decide, rfl, by decide, by decide,
     by decide⟩,
    check_running_tasks_dead_pid c7env [c7task] c7task c7md (.int 42)
      (by decide) (by decide) rfl (by decide) rfl (by decide) (by decide)
      (by decide)⟩

/-! ### Claim C6 -/

theorem foldl_append_runStep (env : RunEnv) (payload : Value)
    (l : List RDesc) (acc : List Action) :
    l.foldl (fun a d => a ++ runStep env payload d) acc
      = acc ++ l.flatMap (runStep env payload) := by
  induction l generalizing acc with
  | nil => simp
  | cons d rest ih => simp [ih, List.flatMap_cons]

theorem run_parallel_eq_flatMap (env : RunEnv) (tasks : List RDesc)
    (payload : Value) :
    run_parallel env tasks payload = tasks.flatMap (runStep env payload) := by
  rw [run_parallel]
  by_cases h : tasks.isEmpty = true
  · rw [if_pos h]
    rw [List.isEmpty_iff] at h
    simp [h]
  · rw [if_neg h, foldl_append_runStep]
    simp

/-- C6: a task whose body raises contributes exactly one non-blocking
warning action carrying its id and the exception text (and the elapsed
time), and every other task of the batch contributes exactly the actions it
would contribute on its own, in submission order. -/
theorem run_parallel_isolates_failure (env : RunEnv) (payload : Value)
    (pre post : List RDesc) (d : RDesc) (msg : String)
    (hfail : d.fn (taskPayload payload d) = .error msg)
    (htod : env.timesOut d.id = false) :
    run_parallel env (pre ++ d :: post) payload =
      run_parallel env pre payload ++
      [{ block := false, reason := some msg, task_id := some d.id,
         elapsed_seconds := some (env.elapsedOf d.id) }] ++
      run_parallel env post payload := by
  rw [run_parallel_eq_flatMap, run_parallel_eq_flatMap,
    run_parallel_eq_flatMap, List.flatMap_append, List.flatMap_cons]
  have hstep : runStep env payload d =
      [{ block := false, reason := some msg, task_id := some d.id,
         elapsed_seconds := some (env.elapsedOf d.id) }] := by
    rw [runStep, if_neg (by simp [htod])]
    rw [safe_task_call]
    rw [hfail]
  rw [hstep]
  simp

theorem run_parallel_isolates_failure_witness :
    descBoom.fn (taskPayload (.dict []) descBoom) = .error "boom" ∧
    runEnvEx.timesOut descBoom.id = false ∧
    run_parallel runEnvEx [descOk, descBoom, descOk2] (.dict []) =
      run_parallel runEnvEx [descOk] (.dict []) ++
      [{ block := false, reason := some "boom", task_id := some "w2",
         elapsed_seconds := some (runEnvEx.elapsedOf descBoom.id) }] ++
      run_parallel runEnvEx [descOk2] (.dict []) :=
  ⟨rfl, rfl, by
    have h := run_parallel_isolates_failure runEnvEx (.dict []) [descOk]
      [descOk2] descBoom "boom" rfl rfl
    simpa using h⟩

/-! ### Claim C1 -/

theorem odGet_odSet_ne (k k' : String) (h : k ≠ k') (v : Value)
    (d : List KV) : odGet k (odSet k' v d) = odGet k d := by
  have hmap : ∀ l : List KV,
      (l.map (fun p => if p.1 == k' then (k', v) else p)).find?
        (fun p => p.1 == k) = l.find? (fun p => p.1 == k) := by
    intro l
    induction l with
    | nil => rfl
    | cons p rest ih =>
        by_cases hp : (p.1 == k') = true
        · have hp1 : p.1 = k' := by simpa using hp
          rw [List.map_cons, if_pos hp, find?_cons_eq, find?_cons_eq]
          have hk1 : ¬ ((k', v).1 == k) = true := by
            simp only [beq_iff_eq]
            exact fun hc => h hc.symm
          have hk2 : ¬ (p.1 == k) = true := by
            simp only [beq_iff_eq, hp1]
            exact fun hc => h hc.symm
          rw [if_neg hk1, if_neg hk2]
          exact ih
        · rw [List.map_cons, if_neg hp, find?_cons_eq, find?_cons_eq]
          by_cases hk : (p.1 == k) = true
          · rw [if_pos hk, if_pos hk]
          · rw [if_neg hk, if_neg hk]
            exact ih
  unfold odSet
  by_cases hc : containsKey k' d = true
  · rw [if_pos hc]
    simp only [odGet, hmap]
  · rw [if_neg hc]
    simp only [odGet, List.find?_append]
    have hsing : ([(k', v)] : List KV).find? (fun p => p.1 == k) = none := by
      rw [find?_cons_eq,
        if_neg (by simp only [beq_iff_eq]; exact fun hc2 => h hc2.symm)]
      rfl
    rw [hsing]
    cases d.find? (fun p => p.1 == k) <;> rfl

theorem odGet_attach_common (k : String) (h1 : k ≠ "suppressOutput")
    (h2 : k ≠ "systemMessage") (sup : Bool) (msgs : List String)
    (p : List KV) : odGet k (attach_common sup msgs p) = odGet k p := by
  simp only [attach_common]
  by_cases hm : (!msgs.isEmpty) = true
  · rw [if_pos hm, odGet_odSet_ne _ _ h2]
    by_cases hs : sup = true
    · rw [if_pos hs, odGet_odSet_ne _ _ h1]
    · rw [if_neg hs]
  · rw [if_neg hm]
    by_cases hs : sup = true
    · rw [if_pos hs, odGet_odSet_ne _ _ h1]
    · rw [if_neg hs]

theorem event_payload_sessionEnd (blocks pre enders : List Action)
    (er ctx : String) :
    event_payload "SessionEnd" blocks pre enders er ctx =
      if ctx = "" then [("continue", .bool true)]
      else odSet "hookSpecificOutput" (.dict
        [("hookEventName", .str "SessionEnd"),
         ("additionalContext", .str ctx)]) [("continue", .bool true)] := rfl

theorem odGet_continue_ctxAppend (h : Value) (ctx : String) :
    odGet "continue"
      (if ctx = "" then [("continue", Value.bool true)]
       else odSet "hookSpecificOutput" h [("continue", Value.bool true)])
      = some (.bool true) := by
  by_cases hc : ctx = ""
  · rw [if_pos hc]
    rfl
  · rw [if_neg hc, odGet_odSet_ne _ _ (by decide)]
    rfl

/-- C1: a SessionEnd invocation always answers `continue: true`, but the
FeedbackStore/BackgroundQueue cleanups run exactly when at least one task
was selected for the event: with zero configured (hence zero selected)
tasks, `main` returns at router.py:234-237 before reaching the cleanup
calls at router.py:466-469, so no cleanup happens. -/
theorem session_end_continue_and_cleanup (henv : HashEnv) (now : Int)
    (renv : RunEnv) (tasks : List RDesc) (payload : Value)
    (bg : List FbData) (bo : List Value) (st : List FeedbackItem) :
    odGet "continue" (main_after_select henv now renv "SessionEnd" tasks
      payload bg bo st).output = some (.bool true) ∧
    (main_after_select henv now renv "SessionEnd" tasks payload bg bo
      st).fbCleanedUp = !tasks.isEmpty ∧
    (main_after_select henv now renv "SessionEnd" tasks payload bg bo
      st).queueCleanedUp = !tasks.isEmpty := by
  by_cases h : tasks.isEmpty = true
  · rw [main_after_select, if_pos h]
    exact ⟨rfl, by simp [h], by simp [h]⟩
  · rw [main_after_select, if_neg h]
    simp only [router_decide]
    refine ⟨?_, by simp [h], by simp [h]⟩
    rw [odGet_attach_common _ (by decide) (by decide),
      event_payload_sessionEnd, odGet_continue_ctxAppend]

/-! ### Claim C5 -/

theorem event_payload_postToolUse (blocks pre enders : List Action)
    (er ctx : String) :
    event_payload "PostToolUse" blocks pre enders er ctx =
      if !blocks.isEmpty then
        [("decision", .str "block"),
         ("reason", .str (reason_from_blocks "PostToolUse" blocks))]
      else if ctx = "" then [("continue", .bool true)]
      else odSet "hookSpecificOutput" (.dict
        [("hookEventName", .str "PostToolUse"),
         ("additionalContext", .str ctx)]) [("continue", .bool true)] := rfl

theorem record_feedback_fresh (henv : HashEnv) (content task_id : String)
    (fp sev cat : Option String) (strat : String) (now : Int)
    (h : pyStrip content ≠ "") :
    record_feedback henv content task_id fp sev cat strat now [] =
      (freshFeedbackRow henv content task_id fp sev cat strat now,
       [freshFeedbackRow henv content task_id fp sev cat strat now]) := by
  rw [record_feedback, if_neg h]
  simp [cleanup_expired, find?_cons_eq, freshFeedbackRow]

theorem dedupeAdds_single_fresh (henv : HashEnv) (now : Int) (b : Action)
    (s : String) (hadd : b.add_context = some s) (hs : pyStrip s ≠ "") :
    dedupeAdds henv now [b] [] =
      ([b], mark_shown (issueIdOf henv (b.task_id.getD "unknown")
        b.file_path (pyStrip s)) [freshFeedbackRow henv s
          (b.task_id.getD "unknown") b.file_path b.severity b.category
          "show_once" now]) := by
  have hne : s ≠ "" := by
    intro e
    exact hs (by rw [e]; rfl)
  rw [dedupeAdds, List.foldl_cons, List.foldl_nil, hadd]
  dsimp only
  rw [if_pos hne]
  rw [record_feedback_fresh henv s _ _ _ _ _ _ hs]
  rw [if_pos (by simp [freshFeedbackRow, should_show_feedback])]
  simp [freshFeedbackRow]

/-- C5: under policy block_on ["security:error"], any PostToolUse run whose
results contain an outcome with severity "error" and category "security"
responds with decision "block"; the same severity/category outcome without
any matching rule and without an explicit block flag yields only the
advisory additionalContext response (no decision key, continue true). -/
theorem policy_block_vs_advisory (henv : HashEnv) (now : Int)
    (results : List Action) (st : List FeedbackItem) (a b : Action)
    (bo : List Value) (s : String)
    (hmem : a ∈ results) (hsev : a.severity = some "error")
    (hcat : a.category = some "security")
    (_hbsev : b.severity = some "error")
    (_hbcat : b.category = some "security")
    (hbblock : b.block = false) (hbmatch : matches_policy bo b = false)
    (hbadd : b.add_context = some s) (hbs : pyStrip s ≠ "")
    (hblines : (pySplitlines s).length ≤ 50)
    (hbsup : b.suppress_output = none) (hbsys : b.system_message = none) :
    odGet "decision" (router_decide henv now "PostToolUse" results
      [.str "security:error"] st).output = some (.str "block") ∧
    (router_decide henv now "PostToolUse" [b] bo []).output =
      [("continue", .bool true),
       ("hookSpecificOutput", .dict
         [("hookEventName", .str "PostToolUse"),
          ("additionalContext", .str s)])] ∧
    odGet "decision" (router_decide henv now "PostToolUse" [b] bo []).output
      = none := by
  have hsne : s ≠ "" := by
    intro e
    exact hbs (by rw [e]; rfl)
  have hm : matches_policy [Value.str "security:error"] a = true := by
    rw [matches_policy, if_neg (by decide)]
    rw [hsev, hcat]
    decide
  have hamem : a ∈ results.filter
      (fun x => x.block || matches_policy [Value.str "security:error"] x) :=
    List.mem_filter.mpr ⟨hmem, by rw [hm]; simp⟩
  have hbne : (results.filter
      (fun x => x.block ||
        matches_policy [Value.str "security:error"] x)).isEmpty = false := by
    cases e : results.filter
        (fun x => x.block || matches_policy [Value.str "security:error"] x) with
    | nil => rw [e] at hamem; cases hamem
    | cons x xs => rfl
  have hctx : merged_context [b] = s := by
    rw [merged_context]
    have : [b].filterMap (fun a =>
        match a.add_context with
        | some c => if pyStrip c ≠ "" then some c else none
        | none => none) = [s] := by
      simp [hbadd, hbs]
    rw [this]
    have hone : String.intercalate "\n" [s] = s := rfl
    rw [hone, truncate_context, if_neg hsne, if_pos hblines]
  have hfilters :
      ([b].filter (fun x => x.block || matches_policy bo x)) = [] := by
    simp [hbblock, hbmatch]
  have hadds0 : ([b].filter (fun x =>
      optStrTruthy x.add_context && !x.block && !matches_policy bo x)) =
      [b] := by
    simp [optStrTruthy, hbadd, hsne, hbblock, hbmatch]
  refine ⟨?_, ?_, ?_⟩
  · simp only [router_decide]
    rw [odGet_attach_common _ (by decide) (by decide),
      event_payload_postToolUse, if_pos (by rw [hbne]; rfl)]
    rfl
  · simp only [router_decide]
    rw [hfilters, hadds0]
    rw [dedupeAdds_single_fresh henv now b s hbadd hbs]
    simp only [if_true]
    rw [attach_common]
    have hsup : ([b].any (fun a => a.suppress_output.getD false)) = false := by
      simp [hbsup]
    have hsys : ([b].filterMap (fun a =>
        match a.system_message with
        | some m => if pyStrip m = "" then none else some (pyStrip m)
        | none => none)) = [] := by
      simp [hbsys]
    rw [hsup, hsys]
    simp only [List.isEmpty_nil, Bool.not_true, if_neg (by decide : ¬ false = true)]
    rw [event_payload_postToolUse]
    rw [if_neg (by simp), hctx, if_neg hsne]
    rfl
  · simp only [router_decide]
    rw [hfilters, hadds0]
    rw [dedupeAdds_single_fresh henv now b s hbadd hbs]
    simp only [if_true]
    rw [odGet_attach_common _ (by decide) (by decide)]
    rw [event_payload_postToolUse]
    rw [if_neg (by simp), hctx, if_neg hsne]
    rw [odGet_odSet_ne _ _ (by decide)]
    rfl

theorem policy_block_vs_advisory_witness :
    (c5act ∈ [c5act] ∧ c5act.severity = some "error" ∧
      c5act.category = some "security" ∧ c5act.block = false ∧
      matches_policy [] c5act = false ∧
      c5act.add_context = some "weak cipher" ∧
      pyStrip "weak cipher" ≠ "" ∧
      (pySplitlines "weak cipher").length ≤ 50 ∧
      c5act.suppress_output = none ∧ c5act.system_message = none) ∧
    (odGet "decision" (router_decide hashEnvEx 0 "PostToolUse" [c5act]
        [.str "security:error"] []).output = some (.str "block") ∧
      (router_decide hashEnvEx 0 "PostToolUse" [c5act] [] []).output =
        [("continue", .bool true),
         ("hookSpecificOutput", .dict
           [("hookEventName", .str "PostToolUse"),
            ("additionalContext", .str "weak cipher")])] ∧
      odGet "decision"
        (router_decide hashEnvEx 0 "PostToolUse" [c5act] [] []).output
        = none) :=
  ⟨⟨by decide, rfl, rfl, rfl, rfl, rfl, by decide, by decide, rfl, rfl⟩,
    policy_block_vs_advisory hashEnvEx 0 [c5act] [] c5act c5act []
      "weak cipher" (by decide) rfl rfl rfl rfl rfl rfl rfl (by decide)
      (by decide) rfl rfl⟩

/-! ### Claim C2 -/

/-- C2 counterexample: with every candidate config file existing and every
parse failing (both parsers yield no document), resolution is NOT fatal:
the loader silently returns the built-in defaults, refuting the claim that
universal parse failure stops the session. -/
theorem all_candidates_unparseable_not_fatal :
    load_config_cached 5 c2env none = .ok DEFAULTSv ∧
    (∀ p ∈ candidate_paths c2env, c2env.pathExists p = true) := by
  constructor
  · decide
  · decide

theorem load_skip_unparseable (fuel : Nat) (env : ConfigEnv)
    (l : List String) (acc : List KV × List String)
    (h : ∀ src ∈ l, (load_one env src none).1 = none) :
    l.foldl (fun (acc : List KV × List String) src =>
      let r := load_one env src none
      match r.1 with
      | some data =>
          let rr := resolve_extends fuel env data r.2 acc.2
          (merge_configs acc.1 rr.1, rr.2)
      | none => acc) acc = acc := by
  induction l generalizing acc with
  | nil => rfl
  | cons s rest ih =>
      rw [List.foldl_cons]
      have hs := h s (List.mem_cons_self s rest)
      simp only [hs]
      exact ih acc (fun x hx => h x (List.mem_cons_of_mem s hx))

/-- C2 amended: configuration resolution is fatal exactly when the source
list is empty, i.e. when no explicit source is given (or the explicit list
is empty) and no candidate path exists.  When sources exist but every one
fails to load/parse, the loader returns the built-in defaults without
error. -/
theorem load_config_fatal_iff (fuel : Nat) (env : ConfigEnv)
    (key : Option (List String)) :
    ((load_config_cached fuel env key).isOk = false ↔
      config_sources env key = []) ∧
    (config_sources env key = [] ↔
      ((key = none ∨ key = some []) ∧
        ∀ p ∈ candidate_paths env, env.pathExists p = false)) ∧
    ((∀ src ∈ config_sources env key, (load_one env src none).1 = none) →
      config_sources env key ≠ [] →
      load_config_cached fuel env key = .ok DEFAULTSv) := by
  refine ⟨?_, ?_, ?_⟩
  · rw [load_config_cached]
    by_cases h : (config_sources env key).isEmpty = true
    · rw [if_pos h]
      simp only [Except.isOk, Except.toBool]
      rw [List.isEmpty_iff] at h
      simp [h]
    · rw [if_neg h]
      simp only [Except.isOk, Except.toBool]
      rw [List.isEmpty_iff] at h
      simp [h]
  · rw [config_sources.eq_def]
    have hdisc :
        (match (candidate_paths env).find? env.pathExists with
          | some p => [p]
          | none => ([] : List String)) = [] ↔
        ∀ p ∈ candidate_paths env, env.pathExists p = false := by
      cases hf : (candidate_paths env).find? env.pathExists with
      | none =>
          rw [List.find?_eq_none] at hf
          simp only [true_iff]
          intro p hp
          have := hf p hp
          simpa using this
      | some p =>
          constructor
          · intro hc
            exact absurd hc (List.cons_ne_nil p [])
          · intro hall
            have hmem := List.find?_some hf
            have hpm := List.mem_of_find?_eq_some hf
            rw [hall p hpm] at hmem
            cases hmem
    cases key with
    | none => simpa using hdisc
    | some ts =>
        dsimp only
        by_cases hts : ts.isEmpty = true
        · rw [List.isEmpty_iff] at hts
          subst hts
          simpa using hdisc
        · rw [if_neg hts]
          rw [List.isEmpty_iff] at hts
          simp [hts]
  · intro hall hne
    rw [load_config_cached]
    rw [if_neg (by simpa [List.isEmpty_iff] using hne)]
    rw [load_skip_unparseable fuel env _ _ hall]

theorem load_config_fatal_iff_witness :
    ((∀ src ∈ config_sources c2env none,
        (load_one c2env src none).1 = none) ∧
      config_sources c2env none ≠ []) ∧
    (((load_config_cached 5 c2env none).isOk = false ↔
        config_sources c2env none = []) ∧
      (config_sources c2env none = [] ↔
        ((none = (none : Option (List String)) ∨
            none = some ([] : List String)) ∧
          ∀ p ∈ candidate_paths c2env, c2env.pathExists p = false)) ∧
      ((∀ src ∈ config_sources c2env none,
          (load_one c2env src none).1 = none) →
        config_sources c2env none ≠ [] →
        load_config_cached 5 c2env none = .ok DEFAULTSv)) :=
  ⟨⟨by decide, by decide⟩, load_config_fatal_iff 5 c2env none⟩

/-! ### Claim C4 -/

/-- C4: merging a base section with tasks [A,B,C] against an override layer
that replaces B (same identity key) and removes C yields the task list
[A, B2]: the replacement keeps B's original position and the removed key is
deleted before the override's own entries are applied. -/
theorem merge_sections_order (eA eB eC eB' : Value)
    (hA : task_key eA ≠ "") (hB : task_key eB ≠ "") (hC : task_key eC ≠ "")
    (hAB : task_key eA ≠ task_key eB) (hAC : task_key eA ≠ task_key eC)
    (hBC : task_key eB ≠ task_key eC)
    (hB' : task_key eB' = task_key eB) (hdis : is_disabled eB' = false) :
    merge_event_sections (.dict [("tasks", .list [eA, eB, eC])])
      (.dict [("tasks", .list [eB']),
              ("remove", .list [.str (task_key eC)])])
      = .dict [("tasks", .list [eA, eB'])] := by
  simp [merge_event_sections, normalize_event_section, sec_tasks, odGet,
    odSet, odPop, containsKey, seedAddT, applyAddT, applyRemovesT,
    applyRemList, find?_cons_eq, hA, hB, hC, hAB, hAC, hBC, hB', hdis,
    Ne.symm hAB, Ne.symm hAC, Ne.symm hBC]

theorem merge_sections_order_witness :
    (task_key entA ≠ "" ∧ task_key entB ≠ "" ∧ task_key entC ≠ "" ∧
      task_key entA ≠ task_key entB ∧ task_key entA ≠ task_key entC ∧
      task_key entB ≠ task_key entC ∧ task_key entB' = task_key entB ∧
      is_disabled entB' = false) ∧
    merge_event_sections (.dict [("tasks", .list [entA, entB, entC])])
      (.dict [("tasks", .list [entB']),
              ("remove", .list [.str (task_key entC)])])
      = .dict [("tasks", .list [entA, entB'])] :=
  ⟨⟨by decide, by decide, by decide, by decide, by decide, by decide,
     by decide, by decide⟩,
    merge_sections_order entA entB entC entB' (by decide) (by decide)
      (by decide) (by decide) (by decide) (by decide) (by decide)
      (by decide)⟩

/-! ### Claim C8: supporting lemmas -/

theorem containsKey_iff (k : String) (d : List KV) :
    containsKey k d = true ↔ k ∈ d.map Prod.fst := by
  rw [containsKey, List.any_eq_true]
  constructor
  · rintro ⟨p, hp, he⟩
    exact (eq_of_beq he) ▸ List.mem_map_of_mem Prod.fst hp
  · intro hm
    obtain ⟨p, hp, he⟩ := List.mem_map.mp hm
    exact ⟨p, hp, by simp [he]⟩

theorem contains_eq_false_iff (ks : List String) (k : String) :
    ks.contains k = false ↔ k ∉ ks := by
  rw [← Bool.not_eq_true, List.contains_iff_exists_mem_beq]
  simp [beq_iff_eq]

theorem nodupKeysB_iff (ks : List String) :
    nodupKeysB ks = true ↔ ks.Nodup := by
  induction ks with
  | nil => simp [nodupKeysB]
  | cons k rest ih =>
      rw [nodupKeysB]
      simp only [Bool.and_eq_true, Bool.not_eq_true']
      rw [ih, contains_eq_false_iff, List.nodup_cons]

theorem keys_odSet_of_contains (k : String) (v : Value) (d : List KV)
    (h : containsKey k d = true) :
    (odSet k v d).map Prod.fst = d.map Prod.fst := by
  rw [odSet, if_pos h]
  simp only [List.map_map]
  apply List.map_congr_left
  intro p _
  by_cases hp : (p.1 == k) = true
  · simp only [Function.comp, hp, if_pos]
    exact (eq_of_beq hp).symm
  · simp [Function.comp, hp]

theorem keys_odSet_of_not (k : String) (v : Value) (d : List KV)
    (h : ¬ containsKey k d = true) :
    (odSet k v d).map Prod.fst = d.map Prod.fst ++ [k] := by
  rw [odSet, if_neg h]
  simp

theorem mem_odSet_cases {k : String} {e : Value} {d : List KV} {p : KV}
    (hp : p ∈ odSet k e d) : p = (k, e) ∨ p ∈ d := by
  rw [odSet] at hp
  by_cases hc : containsKey k d = true
  · rw [if_pos hc] at hp
    obtain ⟨q, hq, hqe⟩ := List.mem_map.mp hp
    by_cases hqk : (q.1 == k) = true
    · rw [if_pos hqk] at hqe
      exact Or.inl hqe.symm
    · rw [if_neg hqk] at hqe
      exact Or.inr (hqe ▸ hq)
  · rw [if_neg hc] at hp
    rcases List.mem_append.mp hp with h | h
    · exact Or.inr h
    · exact Or.inl (List.mem_singleton.mp h)

theorem mem_odSet_key {k : String} {e : Value} {d : List KV} {p : KV}
    (hp : p ∈ odSet k e d) (hk : p.1 = k) : p = (k, e) := by
  rw [odSet] at hp
  by_cases hc : containsKey k d = true
  · rw [if_pos hc] at hp
    obtain ⟨q, hq, hqe⟩ := List.mem_map.mp hp
    by_cases hqk : (q.1 == k) = true
    · rw [if_pos hqk] at hqe
      exact hqe.symm
    · rw [if_neg hqk] at hqe
      rw [← hqe] at hk
      exact absurd (by simp [hk]) hqk
  · rw [if_neg hc] at hp
    rcases List.mem_append.mp hp with h | h
    · exact absurd ((containsKey_iff k d).mpr
        (hk ▸ List.mem_map_of_mem Prod.fst h)) hc
    · exact List.mem_singleton.mp h

theorem mem_odPop {k : String} {d : List KV} {p : KV}
    (hp : p ∈ odPop k d) : p ∈ d ∧ p.1 ≠ k := by
  rw [odPop] at hp
  have := List.mem_filter.mp hp
  exact ⟨this.1, by simpa using this.2⟩

theorem pair_unique_of_nodup {d : List KV} {k : String} {v : Value} {p : KV}
    (hnd : (d.map Prod.fst).Nodup) (hkv : (k, v) ∈ d) (hp : p ∈ d)
    (hk : p.1 = k) : p = (k, v) := by
  induction d with
  | nil => cases hkv
  | cons q rest ih =>
      rw [List.map_cons, List.nodup_cons] at hnd
      rcases List.mem_cons.mp hkv with h1 | h1 <;>
        rcases List.mem_cons.mp hp with h2 | h2
      · rw [h2, h1]
      · exfalso
        apply hnd.1
        have hq1 : q.1 = k := by rw [← h1]
        rw [hq1, ← hk]
        exact List.mem_map_of_mem Prod.fst h2
      · exfalso
        apply hnd.1
        rw [h2] at hk
        exact hk ▸ List.mem_map_of_mem Prod.fst h1
      · exact ih hnd.2 h1 h2

theorem odGet_of_mem_nodup {d : List KV} {p : KV}
    (hnd : (d.map Prod.fst).Nodup) (hp : p ∈ d) :
    odGet p.1 d = some p.2 := by
  induction d with
  | nil => cases hp
  | cons q rest ih =>
      rw [List.map_cons, List.nodup_cons] at hnd
      rcases List.mem_cons.mp hp with h | h
      · rw [odGet, find?_cons_eq, if_pos (by rw [h]; exact beq_self_eq_true _)]
        rw [h]
        rfl
      · have hq : ¬ (q.1 == p.1) = true := by
          simp only [beq_iff_eq]
          intro hc
          exact hnd.1 (hc ▸ List.mem_map_of_mem Prod.fst h)
        rw [odGet, find?_cons_eq, if_neg hq]
        exact ih hnd.2 h

theorem odSet_self_of_mem {d : List KV} {k : String} {v : Value}
    (hnd : (d.map Prod.fst).Nodup) (h : (k, v) ∈ d) :
    odSet k v d = d := by
  rw [odSet, if_pos ((containsKey_iff k d).mpr
    (List.mem_map_of_mem Prod.fst h))]
  have hpt : ∀ p ∈ d, (if p.1 == k then (k, v) else p) = id p := by
    intro p hp
    by_cases hpk : (p.1 == k) = true
    · rw [if_pos hpk]
      exact (pair_unique_of_nodup hnd h hp (by simpa using hpk)).symm
    · rw [if_neg hpk]
      rfl
  rw [List.map_congr_left hpt, List.map_id]

theorem mem_of_odGet {d : List KV} {k : String} {v : Value}
    (h : odGet k d = some v) : (k, v) ∈ d := by
  rw [odGet] at h
  cases hf : d.find? (fun p => p.1 == k) with
  | none => rw [hf] at h; cases h
  | some q =>
      rw [hf] at h
      have hq1 : q.1 = k := by simpa using List.find?_some hf
      have hq2 : q.2 = v := by simpa using h
      have : q = (k, v) := by
        rw [← hq1, ← hq2]
      exact this ▸ List.mem_of_find?_eq_some hf

theorem vwfKV_mem {kvs : List KV} {p : KV} (h : vwfKV kvs = true)
    (hp : p ∈ kvs) : vwf p.2 = true := by
  induction kvs with
  | nil => cases hp
  | cons q rest ih =>
      obtain ⟨a, b⟩ := q
      rw [vwfKV, Bool.and_eq_true] at h
      rcases List.mem_cons.mp hp with h1 | h1
      · rw [h1]
        exact h.1
      · exact ih h.2 h1

theorem mergeKVs_id (xa : List KV) (l : List KV)
    (hnd : (xa.map Prod.fst).Nodup)
    (hsub : ∀ p ∈ l, odGet p.1 xa = some p.2)
    (hm : ∀ p ∈ l, mergeV p.2 p.2 = p.2) :
    mergeKVs xa l = xa := by
  induction l with
  | nil => rfl
  | cons q rest ih =>
      obtain ⟨k, v⟩ := q
      rw [mergeKVs]
      have hget : odGet k xa = some v := hsub (k, v) (List.mem_cons_self _ _)
      have hmem : (k, v) ∈ xa := mem_of_odGet hget
      have hstep : mergeStepKV xa k v = xa := by
        rw [mergeStepKV.eq_def, hget]
        cases v with
        | dict db =>
            dsimp only
            have h2 : Value.dict (mergeKVs db db) = Value.dict db :=
              hm (k, .dict db) (List.mem_cons_self _ _)
            injection h2 with h3
            rw [h3]
            exact odSet_self_of_mem hnd hmem
        | null => exact odSet_self_of_mem hnd hmem
        | bool b => exact odSet_self_of_mem hnd hmem
        | str s => exact odSet_self_of_mem hnd hmem
        | int n => exact odSet_self_of_mem hnd hmem
        | list xs => exact odSet_self_of_mem hnd hmem
      rw [hstep]
      exact ih (fun p hp => hsub p (List.mem_cons_of_mem _ hp))
        (fun p hp => hm p (List.mem_cons_of_mem _ hp))

theorem mergeV_self_n : ∀ (n : Nat) (v : Value), sizeOf v ≤ n →
    vwf v = true → mergeV v v = v := by
  intro n
  induction n with
  | zero =>
      intro v hsz _
      exfalso
      cases v <;> simp at hsz
  | succ n ih =>
      intro v hsz hwf
      cases v with
      | null => rfl
      | bool b => rfl
      | str s => rfl
      | int m => rfl
      | list xs => rfl
      | dict xa =>
          show Value.dict (mergeKVs xa xa) = Value.dict xa
          congr 1
          rw [vwf, Bool.and_eq_true] at hwf
          have hnd : (xa.map Prod.fst).Nodup := (nodupKeysB_iff _).mp hwf.1
          apply mergeKVs_id xa xa hnd
          · intro p hp
            exact odGet_of_mem_nodup hnd hp
          · intro p hp
            have hlt : sizeOf p < sizeOf xa := List.sizeOf_lt_of_mem hp
            have hx : sizeOf (Value.dict xa) = 1 + sizeOf xa := by simp
            obtain ⟨a, b⟩ := p
            have hp2 : sizeOf (a, b) = 1 + sizeOf a + sizeOf b := by simp
            apply ih b (by omega) (vwfKV_mem hwf.2 hp)

theorem mergeV_self (v : Value) (h : vwf v = true) : mergeV v v = v :=
  mergeV_self_n (sizeOf v) v (Nat.le_refl _) h

theorem WfD_nil : WfD [] := ⟨rfl, fun p hp => absurd hp (List.not_mem_nil p)⟩

theorem WfD_odSet {d : List KV} {k : String} {e : Value} (hwf : WfD d)
    (hk : k = task_key e) (hne : k ≠ "") : WfD (odSet k e d) := by
  constructor
  · by_cases hc : containsKey k d = true
    · rw [keys_odSet_of_contains _ _ _ hc]
      exact hwf.1
    · rw [keys_odSet_of_not _ _ _ hc, nodupKeysB_iff]
      have h1 : (d.map Prod.fst).Nodup := (nodupKeysB_iff _).mp hwf.1
      refine List.Nodup.append h1 (List.nodup_singleton k) ?_
      intro a ha hb
      rw [List.mem_singleton] at hb
      exact hc ((containsKey_iff k d).mpr (hb ▸ ha))
  · intro p hp
    rcases mem_odSet_cases hp with h | h
    · rw [h]
      exact ⟨hk, hne⟩
    · exact hwf.2 p h

theorem WfD_odPop {d : List KV} {k : String} (hwf : WfD d) :
    WfD (odPop k d) := by
  constructor
  · rw [nodupKeysB_iff]
    exact List.Nodup.sublist ((List.filter_sublist d).map Prod.fst)
      ((nodupKeysB_iff _).mp hwf.1)
  · intro p hp
    exact hwf.2 p (mem_odPop hp).1

theorem WfD_seedAddT {d : List KV} {e : Value} (hwf : WfD d) :
    WfD (seedAddT d e) := by
  rw [seedAddT]
  by_cases hk : task_key e = ""
  · rw [if_pos hk]
    exact hwf
  · rw [if_neg hk]
    exact WfD_odSet hwf rfl hk

theorem WfD_applyAddT {d : List KV} {e : Value} (hwf : WfD d) :
    WfD (applyAddT d e) := by
  rw [applyAddT]
  by_cases hk : task_key e = ""
  · rw [if_pos hk]
    exact hwf
  · rw [if_neg hk]
    by_cases hd : is_disabled e = true
    · rw [if_pos hd]
      exact WfD_odPop hwf
    · rw [if_neg hd]
      exact WfD_odSet hwf rfl hk

theorem WfD_foldl_seed (T : List Value) :
    ∀ acc : List KV, WfD acc → WfD (T.foldl seedAddT acc) := by
  induction T with
  | nil => intro acc h; exact h
  | cons e rest ih =>
      intro acc h
      rw [List.foldl_cons]
      exact ih _ (WfD_seedAddT h)

theorem WfD_foldl_apply (T : List Value) :
    ∀ acc : List KV, WfD acc → WfD (T.foldl applyAddT acc) := by
  induction T with
  | nil => intro acc h; exact h
  | cons e rest ih =>
      intro acc h
      rw [List.foldl_cons]
      exact ih _ (WfD_applyAddT h)

theorem mem_seedAddT {d : List KV} {e : Value} {p : KV}
    (hp : p ∈ seedAddT d e) : p ∈ d ∨ p.2 = e := by
  rw [seedAddT] at hp
  by_cases hk : task_key e = ""
  · rw [if_pos hk] at hp
    exact Or.inl hp
  · rw [if_neg hk] at hp
    rcases mem_odSet_cases hp with h | h
    · exact Or.inr (by rw [h])
    · exact Or.inl h

theorem mem_applyAddT {d : List KV} {e : Value} {p : KV}
    (hp : p ∈ applyAddT d e) : p ∈ d ∨ p.2 = e := by
  rw [applyAddT] at hp
  by_cases hk : task_key e = ""
  · rw [if_pos hk] at hp
    exact Or.inl hp
  · rw [if_neg hk] at hp
    by_cases hd : is_disabled e = true
    · rw [if_pos hd] at hp
      exact Or.inl (mem_odPop hp).1
    · rw [if_neg hd] at hp
      rcases mem_odSet_cases hp with h | h
      · exact Or.inr (by rw [h])
      · exact Or.inl h

theorem mem_foldl_seed (T : List Value) :
    ∀ (acc : List KV) (p : KV), p ∈ T.foldl seedAddT acc →
      p ∈ acc ∨ p.2 ∈ T := by
  induction T with
  | nil => intro acc p hp; exact Or.inl hp
  | cons e rest ih =>
      intro acc p hp
      rw [List.foldl_cons] at hp
      rcases ih _ p hp with h | h
      · rcases mem_seedAddT h with h1 | h1
        · exact Or.inl h1
        · exact Or.inr (h1 ▸ List.mem_cons_self e rest)
      · exact Or.inr (List.mem_cons_of_mem e h)

theorem mem_foldl_apply (T : List Value) :
    ∀ (acc : List KV) (p : KV), p ∈ T.foldl applyAddT acc →
      p ∈ acc ∨ p.2 ∈ T := by
  induction T with
  | nil => intro acc p hp; exact Or.inl hp
  | cons e rest ih =>
      intro acc p hp
      rw [List.foldl_cons] at hp
      rcases ih _ p hp with h | h
      · rcases mem_applyAddT h with h1 | h1
        · exact Or.inl h1
        · exact Or.inr (h1 ▸ List.mem_cons_self e rest)
      · exact Or.inr (List.mem_cons_of_mem e h)

theorem containsKey_odSet_self (k : String) (v : Value) (d : List KV) :
    containsKey k (odSet k v d) = true := by
  rw [containsKey_iff]
  by_cases hc : containsKey k d = true
  · rw [keys_odSet_of_contains _ _ _ hc]
    exact (containsKey_iff k d).mp hc
  · rw [keys_odSet_of_not _ _ _ hc]
    exact List.mem_append.mpr (Or.inr (List.mem_singleton.mpr rfl))

theorem containsKey_odSet_mono {k : String} {d : List KV} (k' : String)
    (v : Value) (h : containsKey k d = true) :
    containsKey k (odSet k' v d) = true := by
  rw [containsKey_iff]
  by_cases hc : containsKey k' d = true
  · rw [keys_odSet_of_contains _ _ _ hc]
    exact (containsKey_iff k d).mp h
  · rw [keys_odSet_of_not _ _ _ hc]
    exact List.mem_append.mpr (Or.inl ((containsKey_iff k d).mp h))

theorem containsKey_seed_mono (T : List Value) :
    ∀ (acc : List KV) (k : String), containsKey k acc = true →
      containsKey k (T.foldl seedAddT acc) = true := by
  induction T with
  | nil => intro acc k h; exact h
  | cons e rest ih =>
      intro acc k h
      rw [List.foldl_cons]
      apply ih
      rw [seedAddT]
      by_cases hk : task_key e = ""
      · rw [if_pos hk]
        exact h
      · rw [if_neg hk]
        exact containsKey_odSet_mono _ _ h

theorem containsKey_seed {T : List Value} {e : Value} (he : e ∈ T)
    (hk : task_key e ≠ "") (acc : List KV) :
    containsKey (task_key e) (T.foldl seedAddT acc) = true := by
  induction T generalizing acc with
  | nil => cases he
  | cons e' rest ih =>
      rw [List.foldl_cons]
      rcases List.mem_cons.mp he with h | h
      · subst h
        apply containsKey_seed_mono
        rw [seedAddT, if_neg hk]
        exact containsKey_odSet_self _ _ _
      · exact ih h _

theorem filter_ne_eq_self {d : List KV} {k : String}
    (h : ¬ containsKey k d = true) : d.filter (fun p => p.1 != k) = d := by
  apply List.filter_eq_self.mpr
  intro p hp
  simp only [bne_iff_ne, ne_eq]
  intro hc
  exact h ((containsKey_iff k d).mpr (hc ▸ List.mem_map_of_mem Prod.fst hp))

theorem applyRemList_eq_filter (rs : List Value) :
    ∀ d : List KV, applyRemList d rs
      = d.filter (fun p => !((strsOf rs).contains p.1)) := by
  induction rs with
  | nil =>
      intro d
      have : ∀ p ∈ d, (!((strsOf ([] : List Value)).contains p.1)) = true := by
        intro p _
        rfl
      rw [applyRemList]
      rw [List.filter_eq_self.mpr this]
      rfl
  | cons r rest ih =>
      intro d
      cases r with
      | str s =>
          have harg : (if containsKey s d = true then odPop s d else d)
              = d.filter (fun p => p.1 != s) := by
            by_cases hc : containsKey s d = true
            · rw [if_pos hc]
              rfl
            · rw [if_neg hc, filter_ne_eq_self hc]
          have hstep : applyRemList d (.str s :: rest)
              = applyRemList (d.filter (fun p => p.1 != s)) rest := by
            rw [applyRemList, List.foldl_cons]
            dsimp only
            rw [harg]
            rfl
          rw [hstep, ih, List.filter_filter]
          apply List.filter_congr
          intro p _
          have hcons : (strsOf (Value.str s :: rest)).contains p.1
              = (p.1 == s || (strsOf rest).contains p.1) := by
            show (s :: strsOf rest).contains p.1 = _
            rw [List.contains_cons]
          rw [hcons, Bool.not_or, Bool.and_comm]
          rfl
      | null =>
          rw [applyRemList, List.foldl_cons]
          exact ih d
      | bool b =>
          rw [applyRemList, List.foldl_cons]
          exact ih d
      | int n =>
          rw [applyRemList, List.foldl_cons]
          exact ih d
      | list xs =>
          rw [applyRemList, List.foldl_cons]
          exact ih d
      | dict kvs =>
          rw [applyRemList, List.foldl_cons]
          exact ih d

theorem foldl_seed_fresh : ∀ (S acc : List KV),
    (((acc ++ S).map Prod.fst)).Nodup →
    (∀ p ∈ S, p.1 = task_key p.2 ∧ p.1 ≠ "") →
    List.foldl seedAddT acc (S.map Prod.snd) = acc ++ S := by
  intro S
  induction S with
  | nil =>
      intro acc _ _
      rw [List.map_nil, List.foldl_nil, List.append_nil]
  | cons q S' ih =>
      intro acc hnd hprop
      obtain ⟨k, v⟩ := q
      have hq := hprop (k, v) (List.mem_cons_self _ _)
      have hk : task_key v = k := hq.1.symm
      have hnotin : ¬ containsKey k acc = true := by
        rw [containsKey_iff]
        rw [List.map_append, List.map_cons] at hnd
        have hdis := (List.nodup_append.mp hnd).2.2
        intro hmem
        exact hdis hmem (List.mem_cons_self _ _)
      have hstep : seedAddT acc v = acc ++ [(k, v)] := by
        rw [seedAddT, if_neg (hk ▸ hq.2), hk, odSet, if_neg hnotin]
      rw [List.map_cons, List.foldl_cons, hstep]
      have hnd' : (((acc ++ [(k, v)]) ++ S').map Prod.fst).Nodup := by
        rw [List.append_assoc, List.singleton_append]
        exact hnd
      rw [ih (acc ++ [(k, v)]) hnd'
        (fun p hp => hprop p (List.mem_cons_of_mem _ hp))]
      rw [List.append_assoc, List.singleton_append]

theorem foldl_apply_fresh : ∀ (S acc : List KV),
    (((acc ++ S).map Prod.fst)).Nodup →
    (∀ p ∈ S, p.1 = task_key p.2 ∧ p.1 ≠ "") →
    (∀ p ∈ S, is_disabled p.2 = false) →
    List.foldl applyAddT acc (S.map Prod.snd) = acc ++ S := by
  intro S
  induction S with
  | nil =>
      intro acc _ _ _
      rw [List.map_nil, List.foldl_nil, List.append_nil]
  | cons q S' ih =>
      intro acc hnd hprop hdis
      obtain ⟨k, v⟩ := q
      have hq := hprop (k, v) (List.mem_cons_self _ _)
      have hk : task_key v = k := hq.1.symm
      have hnotin : ¬ containsKey k acc = true := by
        rw [containsKey_iff]
        rw [List.map_append, List.map_cons] at hnd
        have hd2 := (List.nodup_append.mp hnd).2.2
        intro hmem
        exact hd2 hmem (List.mem_cons_self _ _)
      have hstep : applyAddT acc v = acc ++ [(k, v)] := by
        rw [applyAddT, if_neg (hk ▸ hq.2),
          if_neg (by rw [hdis (k, v) (List.mem_cons_self _ _)]; simp),
          hk, odSet, if_neg hnotin]
      rw [List.map_cons, List.foldl_cons, hstep]
      have hnd' : (((acc ++ [(k, v)]) ++ S').map Prod.fst).Nodup := by
        rw [List.append_assoc, List.singleton_append]
        exact hnd
      rw [ih (acc ++ [(k, v)]) hnd'
        (fun p hp => hprop p (List.mem_cons_of_mem _ hp))
        (fun p hp => hdis p (List.mem_cons_of_mem _ hp))]
      rw [List.append_assoc, List.singleton_append]

theorem foldl_apply_self : ∀ (l : List Value) (d : List KV),
    (d.map Prod.fst).Nodup →
    (∀ v ∈ l, (task_key v, v) ∈ d ∧ task_key v ≠ "" ∧
      is_disabled v = false) →
    List.foldl applyAddT d l = d := by
  intro l
  induction l with
  | nil => intro d _ _; rfl
  | cons v l' ih =>
      intro d hnd hv
      have h1 := hv v (List.mem_cons_self _ _)
      have hstep : applyAddT d v = d := by
        rw [applyAddT, if_neg h1.2.1, if_neg (by rw [h1.2.2]; simp)]
        exact odSet_self_of_mem hnd h1.1
      rw [List.foldl_cons, hstep]
      exact ih d hnd (fun x hx => hv x (List.mem_cons_of_mem _ hx))

theorem applyAddT_pair_prop {d : List KV} {e : Value}
    (hprop : ∀ p ∈ d, p.1 = task_key p.2 ∧ p.1 ≠ "") :
    ∀ p ∈ applyAddT d e, p.1 = task_key p.2 ∧ p.1 ≠ "" := by
  intro p hp
  rw [applyAddT] at hp
  by_cases hk : task_key e = ""
  · rw [if_pos hk] at hp
    exact hprop p hp
  · rw [if_neg hk] at hp
    by_cases hd : is_disabled e = true
    · rw [if_pos hd] at hp
      exact hprop p (mem_odPop hp).1
    · rw [if_neg hd] at hp
      rcases mem_odSet_cases hp with h | h
      · rw [h]
        exact ⟨rfl, hk⟩
      · exact hprop p h

theorem applyB_no_disabled : ∀ (T : List Value) (d : List KV),
    (∀ p ∈ d, p.1 = task_key p.2 ∧ p.1 ≠ "") →
    (∀ p ∈ d, is_disabled p.2 = true → ∃ e ∈ T, task_key e = p.1) →
    ∀ p ∈ List.foldl applyAddT d T, is_disabled p.2 = false := by
  intro T
  induction T with
  | nil =>
      intro d _ hw p hp
      rw [List.foldl_nil] at hp
      cases hd : is_disabled p.2 with
      | false => rfl
      | true =>
          obtain ⟨e, he, _⟩ := hw p hp hd
          cases he
  | cons e T' ih =>
      intro d hprop hw
      rw [List.foldl_cons]
      apply ih
      · exact applyAddT_pair_prop hprop
      · intro p hp hdis
        rw [applyAddT] at hp
        by_cases hk : task_key e = ""
        · rw [if_pos hk] at hp
          obtain ⟨e', he', hke'⟩ := hw p hp hdis
          rcases List.mem_cons.mp he' with h | h
          · exact absurd (hke' ▸ (h ▸ hk)) (hprop p hp).2
          · exact ⟨e', h, hke'⟩
        · rw [if_neg hk] at hp
          by_cases hd : is_disabled e = true
          · rw [if_pos hd] at hp
            obtain ⟨hpd, hpk⟩ := mem_odPop hp
            obtain ⟨e', he', hke'⟩ := hw p hpd hdis
            rcases List.mem_cons.mp he' with h | h
            · exact absurd (h ▸ hke').symm hpk
            · exact ⟨e', h, hke'⟩
          · rw [if_neg hd] at hp
            by_cases hpk : p.1 = task_key e
            · have hpe := mem_odSet_key hp hpk
              rw [hpe] at hdis
              exact absurd hdis hd
            · rcases mem_odSet_cases hp with h | h
              · exact absurd (by rw [h]) hpk
              · obtain ⟨e', he', hke'⟩ := hw p h hdis
                rcases List.mem_cons.mp he' with h1 | h1
                · exact absurd (h1 ▸ hke').symm hpk
                · exact ⟨e', h1, hke'⟩

theorem vals_pair_of_WfD {D : List KV} (hwf : WfD D) {v : Value}
    (hv : v ∈ D.map Prod.snd) :
    (task_key v, v) ∈ D ∧ task_key v ≠ "" := by
  obtain ⟨p, hp, hpv⟩ := List.mem_map.mp hv
  have hprop := hwf.2 p hp
  have : p = (task_key v, v) := by
    rw [← hpv]
    rw [← hprop.1]
  exact ⟨this ▸ hp, by rw [← hpv, ← hprop.1]; exact hprop.2⟩

theorem core_branch1 (T : List Value) :
    List.foldl applyAddT
      (List.foldl seedAddT []
        ((List.foldl applyAddT (List.foldl seedAddT [] T) T).map Prod.snd))
      ((List.foldl applyAddT (List.foldl seedAddT [] T) T).map Prod.snd)
      = List.foldl applyAddT (List.foldl seedAddT [] T) T := by
  set seedD := List.foldl seedAddT [] T with hseedD
  set D := List.foldl applyAddT seedD T with hD
  have hwfseed : WfD seedD := WfD_foldl_seed T [] WfD_nil
  have hwfD : WfD D := WfD_foldl_apply T seedD hwfseed
  have hnodis : ∀ p ∈ D, is_disabled p.2 = false := by
    apply applyB_no_disabled T seedD (fun p hp => hwfseed.2 p hp)
    intro p hp _
    rcases mem_foldl_seed T [] p hp with h | h
    · cases h
    · exact ⟨p.2, h, (hwfseed.2 p hp).1.symm⟩
  have hnd : (D.map Prod.fst).Nodup := (nodupKeysB_iff _).mp hwfD.1
  have hseed : List.foldl seedAddT [] (D.map Prod.snd) = D := by
    have := foldl_seed_fresh D [] (by simpa using hnd)
      (fun p hp => hwfD.2 p hp)
    simpa using this
  rw [hseed]
  apply foldl_apply_self (D.map Prod.snd) D hnd
  intro v hv
  obtain ⟨hmem, hne⟩ := vals_pair_of_WfD hwfD hv
  obtain ⟨p, hp, hpv⟩ := List.mem_map.mp hv
  refine ⟨hmem, hne, ?_⟩
  rw [← hpv]
  exact hnodis p hp

theorem mapf_keys (k : String) (e : Value) (l : List KV) :
    (l.map (fun p => if p.1 == k then (k, e) else p)).map Prod.fst
      = l.map Prod.fst := by
  rw [List.map_map]
  apply List.map_congr_left
  intro p _
  by_cases hp : (p.1 == k) = true
  · simp only [Function.comp, hp, if_pos]
    exact (eq_of_beq hp).symm
  · simp [Function.comp, hp]

theorem mapf_id_of_no_key (k : String) (e : Value) (l : List KV)
    (h : ∀ p ∈ l, p.1 ≠ k) :
    l.map (fun p => if p.1 == k then (k, e) else p) = l := by
  have hc : ∀ p ∈ l, (if p.1 == k then (k, e) else p) = id p := by
    intro p hp
    rw [if_neg (by simpa using h p hp)]
    rfl
  rw [List.map_congr_left hc, List.map_id]

theorem applyB_partition : ∀ (T : List Value) (P S : List KV)
    (strs : List String),
    (∀ e ∈ T, is_disabled e = false) →
    ((P ++ S).map Prod.fst).Nodup →
    (∀ p ∈ P ++ S, p.1 = task_key p.2 ∧ p.1 ≠ "") →
    (∀ p ∈ P, strs.contains p.1 = false) →
    (∀ p ∈ S, strs.contains p.1 = true) →
    (∀ p ∈ P ++ S, is_disabled p.2 = false) →
    (∀ e ∈ T, task_key e ≠ "" → strs.contains (task_key e) = false →
      task_key e ∈ P.map Prod.fst) →
    ∃ P2 S2, List.foldl applyAddT (P ++ S) T = P2 ++ S2 ∧
      P2.map Prod.fst = P.map Prod.fst ∧
      (∀ p ∈ P2, strs.contains p.1 = false) ∧
      (∀ p ∈ S2, strs.contains p.1 = true) ∧
      ((P2 ++ S2).map Prod.fst).Nodup ∧
      (∀ p ∈ P2 ++ S2, p.1 = task_key p.2 ∧ p.1 ≠ "") ∧
      (∀ p ∈ P2 ++ S2, is_disabled p.2 = false) := by
  intro T
  induction T with
  | nil =>
      intro P S strs _ hnd hprop hP hS hdis _
      exact ⟨P, S, rfl, rfl, hP, hS, hnd, hprop, hdis⟩
  | cons e T' ih =>
      intro P S strs hT hnd hprop hP hS hdis hcov
      rw [List.foldl_cons]
      have hTe : is_disabled e = false := hT e (List.mem_cons_self _ _)
      have hT' : ∀ x ∈ T', is_disabled x = false :=
        fun x hx => hT x (List.mem_cons_of_mem _ hx)
      have hcov' : ∀ x ∈ T', task_key x ≠ "" →
          strs.contains (task_key x) = false → task_key x ∈ P.map Prod.fst :=
        fun x hx => hcov x (List.mem_cons_of_mem _ hx)
      by_cases hk : task_key e = ""
      · rw [applyAddT, if_pos hk]
        exact ih P S strs hT' hnd hprop hP hS hdis hcov'
      · rw [applyAddT, if_neg hk, if_neg (by simp [hTe])]
        by_cases hks : strs.contains (task_key e) = false
        · -- key survives removal: replaced in place inside P
          have hkP : task_key e ∈ P.map Prod.fst :=
            hcov e (List.mem_cons_self _ _) hk hks
          have hcs : containsKey (task_key e) (P ++ S) = true := by
            rw [containsKey_iff, List.map_append]
            exact List.mem_append.mpr (Or.inl hkP)
          rw [odSet, if_pos hcs, List.map_append]
          have hSne : ∀ p ∈ S, p.1 ≠ task_key e := by
            intro p hp hpe
            have h1 := hS p hp
            rw [hpe, hks] at h1
            exact Bool.false_ne_true h1
          rw [mapf_id_of_no_key (task_key e) e S hSne]
          have hkeys : ((P.map (fun p =>
              if p.1 == task_key e then (task_key e, e) else p)).map Prod.fst)
              = P.map Prod.fst := mapf_keys _ _ _
          have hnd' : (((P.map (fun p =>
              if p.1 == task_key e then (task_key e, e) else p)) ++ S).map
              Prod.fst).Nodup := by
            rw [List.map_append, hkeys, ← List.map_append]
            exact hnd
          have hmemP : ∀ p ∈ P.map (fun p =>
              if p.1 == task_key e then (task_key e, e) else p),
              p = (task_key e, e) ∨ p ∈ P := by
            intro p hp
            obtain ⟨q, hq, hqe⟩ := List.mem_map.mp hp
            by_cases hqk : (q.1 == task_key e) = true
            · rw [if_pos hqk] at hqe
              exact Or.inl hqe.symm
            · rw [if_neg hqk] at hqe
              exact Or.inr (hqe ▸ hq)
          have hprop' : ∀ p ∈ (P.map (fun p =>
              if p.1 == task_key e then (task_key e, e) else p)) ++ S,
              p.1 = task_key p.2 ∧ p.1 ≠ "" := by
            intro p hp
            rcases List.mem_append.mp hp with h | h
            · rcases hmemP p h with h2 | h2
              · rw [h2]
                exact ⟨rfl, hk⟩
              · exact hprop p (List.mem_append.mpr (Or.inl h2))
            · exact hprop p (List.mem_append.mpr (Or.inr h))
          have hP' : ∀ p ∈ P.map (fun p =>
              if p.1 == task_key e then (task_key e, e) else p),
              strs.contains p.1 = false := by
            intro p hp
            rcases hmemP p hp with h2 | h2
            · rw [h2]
              exact hks
            · exact hP p h2
          have hdis' : ∀ p ∈ (P.map (fun p =>
              if p.1 == task_key e then (task_key e, e) else p)) ++ S,
              is_disabled p.2 = false := by
            intro p hp
            rcases List.mem_append.mp hp with h | h
            · rcases hmemP p h with h2 | h2
              · rw [h2]
                exact hTe
              · exact hdis p (List.mem_append.mpr (Or.inl h2))
            · exact hdis p (List.mem_append.mpr (Or.inr h))
          have hcov2 : ∀ x ∈ T', task_key x ≠ "" →
              strs.contains (task_key x) = false → task_key x ∈
              ((P.map (fun p =>
                if p.1 == task_key e then (task_key e, e) else p)).map
                Prod.fst) := by
            intro x hx h1 h2
            rw [hkeys]
            exact hcov' x hx h1 h2
          obtain ⟨P2, S2, heq, hk2, hrest⟩ :=
            ih _ S strs hT' hnd' hprop' hP' hS hdis' hcov2
          exact ⟨P2, S2, heq, by rw [hk2, hkeys], hrest⟩
        · -- key is in the removed set: it lives (or lands) in S
          have hks2 : strs.contains (task_key e) = true := by
            cases h2 : strs.contains (task_key e)
            · exact absurd h2 hks
            · rfl
          have hPne : ∀ p ∈ P, p.1 ≠ task_key e := by
            intro p hp hpe
            have h1 := hP p hp
            rw [hpe, hks2] at h1
            simp at h1
          by_cases hcs : containsKey (task_key e) (P ++ S) = true
          · rw [odSet, if_pos hcs, List.map_append]
            rw [mapf_id_of_no_key (task_key e) e P hPne]
            have hkeysS : ((S.map (fun p =>
                if p.1 == task_key e then (task_key e, e) else p)).map
                Prod.fst) = S.map Prod.fst := mapf_keys _ _ _
            have hnd' : ((P ++ S.map (fun p =>
                if p.1 == task_key e then (task_key e, e) else p)).map
                Prod.fst).Nodup := by
              rw [List.map_append, hkeysS, ← List.map_append]
              exact hnd
            have hmemS : ∀ p ∈ S.map (fun p =>
                if p.1 == task_key e then (task_key e, e) else p),
                p = (task_key e, e) ∨ p ∈ S := by
              intro p hp
              obtain ⟨q, hq, hqe⟩ := List.mem_map.mp hp
              by_cases hqk : (q.1 == task_key e) = true
              · rw [if_pos hqk] at hqe
                exact Or.inl hqe.symm
              · rw [if_neg hqk] at hqe
                exact Or.inr (hqe ▸ hq)
            have hprop' : ∀ p ∈ P ++ S.map (fun p =>
                if p.1 == task_key e then (task_key e, e) else p),
                p.1 = task_key p.2 ∧ p.1 ≠ "" := by
              intro p hp
              rcases List.mem_append.mp hp with h | h
              · exact hprop p (List.mem_append.mpr (Or.inl h))
              · rcases hmemS p h with h2 | h2
                · rw [h2]
                  exact ⟨rfl, hk⟩
                · exact hprop p (List.mem_append.mpr (Or.inr h2))
            have hS' : ∀ p ∈ S.map (fun p =>
                if p.1 == task_key e then (task_key e, e) else p),
                strs.contains p.1 = true := by
              intro p hp
              rcases hmemS p hp with h2 | h2
              · rw [h2]
                exact hks2
              · exact hS p h2
            have hdis' : ∀ p ∈ P ++ S.map (fun p =>
                if p.1 == task_key e then (task_key e, e) else p),
                is_disabled p.2 = false := by
              intro p hp
              rcases List.mem_append.mp hp with h | h
              · exact hdis p (List.mem_append.mpr (Or.inl h))
              · rcases hmemS p h with h2 | h2
                · rw [h2]
                  exact hTe
                · exact hdis p (List.mem_append.mpr (Or.inr h2))
            exact ih P _ strs hT' hnd' hprop' hP hS' hdis' hcov'
          · rw [odSet, if_neg hcs, List.append_assoc]
            have hknot : task_key e ∉ (P ++ S).map Prod.fst := by
              intro hmem
              exact hcs ((containsKey_iff _ _).mpr hmem)
            have hnd' : ((P ++ (S ++ [(task_key e, e)])).map
                Prod.fst).Nodup := by
              rw [← List.append_assoc, List.map_append, List.map_cons,
                List.map_nil]
              refine List.Nodup.append hnd (List.nodup_singleton _) ?_
              intro a ha hb
              rw [List.mem_singleton] at hb
              have hb2 : a = task_key e := hb
              exact hknot (hb2 ▸ ha)
            have hprop' : ∀ p ∈ P ++ (S ++ [(task_key e, e)]),
                p.1 = task_key p.2 ∧ p.1 ≠ "" := by
              intro p hp
              rcases List.mem_append.mp hp with h | h
              · exact hprop p (List.mem_append.mpr (Or.inl h))
              · rcases List.mem_append.mp h with h2 | h2
                · exact hprop p (List.mem_append.mpr (Or.inr h2))
                · rw [List.mem_singleton.mp h2]
                  exact ⟨rfl, hk⟩
            have hS' : ∀ p ∈ S ++ [(task_key e, e)],
                strs.contains p.1 = true := by
              intro p hp
              rcases List.mem_append.mp hp with h | h
              · exact hS p h
              · rw [List.mem_singleton.mp h]
                exact hks2
            have hdis' : ∀ p ∈ P ++ (S ++ [(task_key e, e)]),
                is_disabled p.2 = false := by
              intro p hp
              rcases List.mem_append.mp hp with h | h
              · exact hdis p (List.mem_append.mpr (Or.inl h))
              · rcases List.mem_append.mp h with h2 | h2
                · exact hdis p (List.mem_append.mpr (Or.inr h2))
                · rw [List.mem_singleton.mp h2]
                  exact hTe
            exact ih P _ strs hT' hnd' hprop' hP hS' hdis' hcov'

theorem core_branch2 (T rs : List Value)
    (hT : ∀ e ∈ T, is_disabled e = false) :
    List.foldl applyAddT
      (applyRemList
        (List.foldl seedAddT []
          ((List.foldl applyAddT (applyRemList (List.foldl seedAddT [] T) rs)
            T).map Prod.snd)) rs)
      ((List.foldl applyAddT (applyRemList (List.foldl seedAddT [] T) rs)
        T).map Prod.snd)
      = List.foldl applyAddT (applyRemList (List.foldl seedAddT [] T) rs) T := by
  have hwfs : WfD (List.foldl seedAddT [] T) := WfD_foldl_seed T [] WfD_nil
  have hD0 : applyRemList (List.foldl seedAddT [] T) rs
      = (List.foldl seedAddT [] T).filter
        (fun p => !((strsOf rs).contains p.1)) :=
    applyRemList_eq_filter rs _
  have hndD0 : ((applyRemList (List.foldl seedAddT [] T) rs).map
      Prod.fst).Nodup := by
    rw [hD0]
    exact List.Nodup.sublist ((List.filter_sublist _).map Prod.fst)
      ((nodupKeysB_iff _).mp hwfs.1)
  have hmemD0 : ∀ p ∈ applyRemList (List.foldl seedAddT [] T) rs,
      p ∈ List.foldl seedAddT [] T ∧ (strsOf rs).contains p.1 = false := by
    intro p hp
    rw [hD0] at hp
    have h1 := List.mem_filter.mp hp
    exact ⟨h1.1, by simpa using h1.2⟩
  have hpropD0 : ∀ p ∈ applyRemList (List.foldl seedAddT [] T) rs,
      p.1 = task_key p.2 ∧ p.1 ≠ "" :=
    fun p hp => hwfs.2 p (hmemD0 p hp).1
  have hPD0 : ∀ p ∈ applyRemList (List.foldl seedAddT [] T) rs,
      (strsOf rs).contains p.1 = false :=
    fun p hp => (hmemD0 p hp).2
  have hdisD0 : ∀ p ∈ applyRemList (List.foldl seedAddT [] T) rs,
      is_disabled p.2 = false := by
    intro p hp
    rcases mem_foldl_seed T [] p (hmemD0 p hp).1 with h | h
    · cases h
    · exact hT p.2 h
  have hcov : ∀ e ∈ T, task_key e ≠ "" →
      (strsOf rs).contains (task_key e) = false →
      task_key e ∈ (applyRemList (List.foldl seedAddT [] T) rs).map
        Prod.fst := by
    intro e he hk hstr
    have hck := containsKey_seed he hk []
    rw [containsKey_iff] at hck
    obtain ⟨p, hp, hpe⟩ := List.mem_map.mp hck
    have hpD0 : p ∈ applyRemList (List.foldl seedAddT [] T) rs := by
      rw [hD0]
      refine List.mem_filter.mpr ⟨hp, ?_⟩
      rw [hpe, hstr]
      rfl
    exact hpe ▸ List.mem_map_of_mem Prod.fst hpD0
  obtain ⟨P2, S2, heq, _, hP2, hS2, hnd2, hprop2, hdis2⟩ :=
    applyB_partition T (applyRemList (List.foldl seedAddT [] T) rs) []
      (strsOf rs) hT
      (by rw [List.append_nil]; exact hndD0)
      (by rw [List.append_nil]; exact hpropD0)
      hPD0
      (fun p hp => absurd hp (List.not_mem_nil p))
      (by rw [List.append_nil]; exact hdisD0)
      hcov
  rw [List.append_nil] at heq
  rw [heq]
  have hseed2 : List.foldl seedAddT [] ((P2 ++ S2).map Prod.snd)
      = P2 ++ S2 := by
    have := foldl_seed_fresh (P2 ++ S2) []
      (by rw [List.nil_append]; exact hnd2)
      (fun p hp => hprop2 p hp)
    rw [List.nil_append] at this
    exact this
  rw [hseed2]
  have hrem2 : applyRemList (P2 ++ S2) rs = P2 := by
    rw [applyRemList_eq_filter, List.filter_append]
    have h1 : P2.filter (fun p => !((strsOf rs).contains p.1)) = P2 := by
      apply List.filter_eq_self.mpr
      intro p hp
      rw [hP2 p hp]
      rfl
    have h2 : S2.filter (fun p => !((strsOf rs).contains p.1)) = [] := by
      apply List.filter_eq_nil_iff.mpr
      intro p hp
      rw [hS2 p hp]
      simp
    rw [h1, h2, List.append_nil]
  rw [hrem2, List.map_append, List.foldl_append]
  have hndP2 : (P2.map Prod.fst).Nodup := by
    rw [List.map_append] at hnd2
    exact List.Nodup.of_append_left hnd2
  have hself : List.foldl applyAddT P2 (P2.map Prod.snd) = P2 := by
    apply foldl_apply_self _ _ hndP2
    intro v hv
    obtain ⟨p, hp, hpv⟩ := List.mem_map.mp hv
    have hpr := hprop2 p (List.mem_append.mpr (Or.inl hp))
    have hpd := hdis2 p (List.mem_append.mpr (Or.inl hp))
    subst hpv
    refine ⟨?_, ?_, hpd⟩
    · rw [← hpr.1]
      exact hp
    · rw [← hpr.1]
      exact hpr.2
  rw [hself]
  exact foldl_apply_fresh S2 P2 hnd2
    (fun p hp => hprop2 p (List.mem_append.mpr (Or.inr hp)))
    (fun p hp => hdis2 p (List.mem_append.mpr (Or.inr hp)))

theorem odGet_append_self (k : String) (v : Value) (l : List KV)
    (h : ∀ p ∈ l, (p.1 == k) = false) :
    odGet k (l ++ [(k, v)]) = some v := by
  induction l with
  | nil =>
      rw [List.nil_append, odGet, find?_cons_eq,
        if_pos (beq_self_eq_true k)]
      rfl
  | cons p rest ih =>
      rw [List.cons_append, odGet, find?_cons_eq,
        if_neg (by rw [h p (List.mem_cons_self _ _)]; exact Bool.false_ne_true)]
      exact ih (fun q hq => h q (List.mem_cons_of_mem _ hq))

theorem odGet_append_ne (k k' : String) (hne : k ≠ k') (v : Value)
    (l : List KV) : odGet k (l ++ [(k', v)]) = odGet k l := by
  induction l with
  | nil =>
      rw [List.nil_append, odGet, find?_cons_eq,
        if_neg (by simpa using Ne.symm hne)]
      rfl
  | cons p rest ih =>
      rw [List.cons_append, odGet, find?_cons_eq]
      by_cases hp : (p.1 == k) = true
      · rw [if_pos hp, odGet, find?_cons_eq, if_pos hp]
      · rw [if_neg hp, odGet, find?_cons_eq, if_neg hp]
        exact ih

theorem odGet_filter_ne (k k' : String) (hne : k ≠ k') (d : List KV) :
    odGet k (d.filter (fun p => p.1 != k')) = odGet k d := by
  induction d with
  | nil => rfl
  | cons p rest ih =>
      rw [List.filter_cons]
      by_cases hp : (p.1 != k') = true
      · rw [if_pos hp, odGet, find?_cons_eq]
        by_cases hk : (p.1 == k) = true
        · rw [if_pos hk, odGet, find?_cons_eq, if_pos hk]
        · rw [if_neg hk, odGet, find?_cons_eq, if_neg hk]
          exact ih
      · rw [if_neg hp]
        have hp1 : p.1 = k' := by simpa using hp
        have h2 : odGet k (p :: rest) = odGet k rest := by
          rw [odGet, find?_cons_eq,
            if_neg (by rw [hp1]; simpa using Ne.symm hne)]
          rfl
        rw [h2]
        exact ih

theorem filter_tasks_normal (saF : List KV) (x : Value)
    (h : ∀ p ∈ saF, (p.1 != "tasks") = true) :
    (saF ++ [(("tasks" : String), x)]).filter (fun p => p.1 != "tasks")
      = saF := by
  rw [List.filter_append, List.filter_eq_self.mpr h]
  rw [List.filter_cons_of_neg (by simp), List.filter_nil, List.append_nil]

theorem normalize_dict_shape (saF : List KV) (ts : List Value)
    (h : ∀ p ∈ saF, (p.1 != "tasks") = true) :
    normalize_event_section (.dict (saF ++ [("tasks", .list ts)]))
      = saF ++ [("tasks", .list ts)] := by
  have hget : odGet "tasks" (saF ++ [(("tasks" : String), Value.list ts)])
      = some (.list ts) :=
    odGet_append_self _ _ _ (fun p hp => by
      have := h p hp
      simpa using this)
  rw [normalize_event_section, hget, filter_tasks_normal _ _ h]

theorem sec_tasks_shape (saF : List KV) (ts : List Value)
    (h : ∀ p ∈ saF, (p.1 != "tasks") = true) :
    sec_tasks (saF ++ [("tasks", .list ts)]) = ts := by
  have hget : odGet "tasks" (saF ++ [(("tasks" : String), Value.list ts)])
      = some (.list ts) :=
    odGet_append_self _ _ _ (fun p hp => by
      have := h p hp
      simpa using this)
  rw [sec_tasks, hget]

theorem applyRemovesT_shape (d saF : List KV) (ts : List Value) :
    applyRemovesT d (saF ++ [("tasks", .list ts)]) = applyRemovesT d saF := by
  rw [applyRemovesT, applyRemovesT,
    odGet_append_ne "remove" "tasks" (by decide)]

theorem applyRemovesT_filter (d sa : List KV) :
    applyRemovesT d (sa.filter (fun p => p.1 != "tasks"))
      = applyRemovesT d sa := by
  rw [applyRemovesT, applyRemovesT,
    odGet_filter_ne "remove" "tasks" (by decide)]

theorem applyRemList_trivial (rsv : List Value) (h : strsOf rsv = [])
    (d : List KV) : applyRemList d rsv = d := by
  rw [applyRemList_eq_filter, h]
  apply List.filter_eq_self.mpr
  intro p _
  simp

theorem mes_on_normal (saF : List KV) (ts : List Value)
    (h : ∀ p ∈ saF, (p.1 != "tasks") = true) :
    merge_event_sections (.dict (saF ++ [("tasks", .list ts)]))
      (.dict (saF ++ [("tasks", .list ts)]))
      = .dict (saF ++ [("tasks", .list
          ((List.foldl applyAddT
            (applyRemovesT (List.foldl seedAddT [] ts)
              (saF ++ [("tasks", .list ts)]))
            ts).map Prod.snd))]) := by
  have hnorm := normalize_dict_shape saF ts h
  have hst := sec_tasks_shape saF ts h
  simp only [merge_event_sections]
  rw [hnorm, hst, filter_tasks_normal _ _ h]

theorem merge_event_sections_self_idem (a : Value)
    (hbr : removeStrs (normalize_event_section a) = [] ∨
      ∀ e ∈ sec_tasks (normalize_event_section a), is_disabled e = false) :
    merge_event_sections (merge_event_sections a a) (merge_event_sections a a)
      = merge_event_sections a a := by
  have hsaF : ∀ p ∈ (normalize_event_section a).filter
      (fun p => p.1 != "tasks"), (p.1 != "tasks") = true :=
    fun p hp => (List.mem_filter.mp hp).2
  have hm : merge_event_sections a a
      = .dict (((normalize_event_section a).filter
          (fun p => p.1 != "tasks")) ++
        [("tasks", .list ((List.foldl applyAddT
          (applyRemovesT (List.foldl seedAddT []
            (sec_tasks (normalize_event_section a)))
            (normalize_event_section a))
          (sec_tasks (normalize_event_section a))).map Prod.snd))]) := rfl
  rw [hm, mes_on_normal _ _ hsaF, applyRemovesT_shape, applyRemovesT_filter]
  cases hget : odGet "remove" (normalize_event_section a) with
  | none =>
      have h1 : ∀ d, applyRemovesT d (normalize_event_section a) = d := by
        intro d
        rw [applyRemovesT, hget]
      rw [h1, h1, core_branch1]
  | some v =>
      cases v with
      | list rsv =>
          have h2 : ∀ d, applyRemovesT d (normalize_event_section a)
              = applyRemList d rsv := by
            intro d
            rw [applyRemovesT, hget]
          rw [h2, h2]
          rcases hbr with hrs | hT
          · have hrs2 : strsOf rsv = [] := by
              rw [removeStrs, hget] at hrs
              exact hrs
            rw [applyRemList_trivial rsv hrs2, applyRemList_trivial rsv hrs2,
              core_branch1]
          · rw [core_branch2 _ rsv hT]
      | null =>
          have h1 : ∀ d, applyRemovesT d (normalize_event_section a) = d := by
            intro d
            rw [applyRemovesT, hget]
          rw [h1, h1, core_branch1]
      | bool b =>
          have h1 : ∀ d, applyRemovesT d (normalize_event_section a) = d := by
            intro d
            rw [applyRemovesT, hget]
          rw [h1, h1, core_branch1]
      | str s =>
          have h1 : ∀ d, applyRemovesT d (normalize_event_section a) = d := by
            intro d
            rw [applyRemovesT, hget]
          rw [h1, h1, core_branch1]
      | int n =>
          have h1 : ∀ d, applyRemovesT d (normalize_event_section a) = d := by
            intro d
            rw [applyRemovesT, hget]
          rw [h1, h1, core_branch1]
      | dict kvs =>
          have h1 : ∀ d, applyRemovesT d (normalize_event_section a) = d := by
            intro d
            rw [applyRemovesT, hget]
          rw [h1, h1, core_branch1]

theorem mem_odSet_of_ne {q : KV} {d : List KV} {k : String} {v : Value}
    (hq : q ∈ d) (hne : q.1 ≠ k) : q ∈ odSet k v d := by
  rw [odSet]
  by_cases hc : containsKey k d = true
  · rw [if_pos hc]
    refine List.mem_map.mpr ⟨q, hq, ?_⟩
    rw [if_neg (by simpa using hne)]
  · rw [if_neg hc]
    exact List.mem_append.mpr (Or.inl hq)

theorem WfD_applyRemovesT {d : List KV} (sb : List KV) (h : WfD d) :
    WfD (applyRemovesT d sb) := by
  cases hget : odGet "remove" sb with
  | none =>
      have hred : applyRemovesT d sb = d := by rw [applyRemovesT, hget]
      rw [hred]
      exact h
  | some v =>
      cases v with
      | list rs =>
          have hred : applyRemovesT d sb = applyRemList d rs := by
            rw [applyRemovesT, hget]
          rw [hred, applyRemList_eq_filter]
          constructor
          · rw [nodupKeysB_iff]
            exact List.Nodup.sublist ((List.filter_sublist _).map Prod.fst)
              ((nodupKeysB_iff _).mp h.1)
          · intro p hp
            exact h.2 p (List.mem_filter.mp hp).1
      | null =>
          have hred : applyRemovesT d sb = d := by rw [applyRemovesT, hget]
          rw [hred]
          exact h
      | bool b =>
          have hred : applyRemovesT d sb = d := by rw [applyRemovesT, hget]
          rw [hred]
          exact h
      | str v =>
          have hred : applyRemovesT d sb = d := by rw [applyRemovesT, hget]
          rw [hred]
          exact h
      | int n =>
          have hred : applyRemovesT d sb = d := by rw [applyRemovesT, hget]
          rw [hred]
          exact h
      | dict kvs =>
          have hred : applyRemovesT d sb = d := by rw [applyRemovesT, hget]
          rw [hred]
          exact h

theorem sec_tasks_merge_nodup (a b : Value) :
    ((sec_tasks (normalize_event_section (merge_event_sections a b))).map
      task_key).Nodup := by
  have hsaF : ∀ p ∈ (normalize_event_section a).filter
      (fun p => p.1 != "tasks"), (p.1 != "tasks") = true :=
    fun p hp => (List.mem_filter.mp hp).2
  have hm : merge_event_sections a b
      = .dict (((normalize_event_section a).filter
          (fun p => p.1 != "tasks")) ++
        [("tasks", .list ((List.foldl applyAddT
          (applyRemovesT (List.foldl seedAddT []
            (sec_tasks (normalize_event_section a)))
            (normalize_event_section b))
          (sec_tasks (normalize_event_section b))).map Prod.snd))]) := rfl
  rw [hm, normalize_dict_shape _ _ hsaF, sec_tasks_shape _ _ hsaF]
  have hWfD : WfD (List.foldl applyAddT
      (applyRemovesT (List.foldl seedAddT []
        (sec_tasks (normalize_event_section a)))
        (normalize_event_section b))
      (sec_tasks (normalize_event_section b))) :=
    WfD_foldl_apply _ _ (WfD_applyRemovesT _ (WfD_foldl_seed _ _ WfD_nil))
  rw [List.map_map]
  have hkeys : (List.foldl applyAddT
      (applyRemovesT (List.foldl seedAddT []
        (sec_tasks (normalize_event_section a)))
        (normalize_event_section b))
      (sec_tasks (normalize_event_section b))).map (task_key ∘ Prod.snd)
      = (List.foldl applyAddT
      (applyRemovesT (List.foldl seedAddT []
        (sec_tasks (normalize_event_section a)))
        (normalize_event_section b))
      (sec_tasks (normalize_event_section b))).map Prod.fst := by
    apply List.map_congr_left
    intro p hp
    exact ((hWfD.2 p hp).1).symm
  rw [hkeys]
  exact (nodupKeysB_iff _).mp hWfD.1

theorem merge_configs_cons (a : List KV) (kv : KV) (b : List KV)
    (hget : odGet kv.1 a = some kv.2) :
    merge_configs a (kv :: b)
      = merge_configs (odSet kv.1 (selfStep kv.1 kv.2) a) b := by
  have hstep : (if EVENT_KEYS.contains kv.1 then
        odSet kv.1 (merge_event_sections
          ((odGet kv.1 a).getD (.dict [("tasks", .list [])])) kv.2) a
      else
        match odGet kv.1 a, kv.2 with
        | some (.dict da), .dict db =>
            odSet kv.1 (mergeV (.dict da) (.dict db)) a
        | _, _ => odSet kv.1 kv.2 a)
      = odSet kv.1 (selfStep kv.1 kv.2) a := by
    by_cases hev : EVENT_KEYS.contains kv.1 = true
    · have hss : selfStep kv.1 kv.2 = merge_event_sections kv.2 kv.2 := by
        show (if EVENT_KEYS.contains kv.1 then
            merge_event_sections kv.2 kv.2
          else match kv.2 with
            | .dict d => mergeV (.dict d) (.dict d)
            | _ => kv.2) = merge_event_sections kv.2 kv.2
        rw [if_pos hev]
      rw [if_pos hev, hget, Option.getD_some, hss]
    · have hss : selfStep kv.1 kv.2 = (match kv.2 with
          | .dict d => mergeV (.dict d) (.dict d)
          | _ => kv.2) := by
        show (if EVENT_KEYS.contains kv.1 then
            merge_event_sections kv.2 kv.2
          else match kv.2 with
            | .dict d => mergeV (.dict d) (.dict d)
            | _ => kv.2) = _
        rw [if_neg hev]
      rw [if_neg hev, hget, hss]
      cases hv : kv.2 <;> rfl
  show merge_configs (if EVENT_KEYS.contains kv.1 then
        odSet kv.1 (merge_event_sections
          ((odGet kv.1 a).getD (.dict [("tasks", .list [])])) kv.2) a
      else
        match odGet kv.1 a, kv.2 with
        | some (.dict da), .dict db =>
            odSet kv.1 (mergeV (.dict da) (.dict db)) a
        | _, _ => odSet kv.1 kv.2 a) b
      = merge_configs (odSet kv.1 (selfStep kv.1 kv.2) a) b
  rw [hstep]

theorem merge_configs_self_map : ∀ (rest out : List KV),
    (out.map Prod.fst).Nodup →
    (rest.map Prod.fst).Nodup →
    (∀ p ∈ rest, p ∈ out) →
    merge_configs out rest
      = List.foldl (fun o p => odSet p.1 (selfStep p.1 p.2) o) out rest := by
  intro rest
  induction rest with
  | nil => intro out _ _ _; rfl
  | cons p rest' ih =>
      intro out hndO hndR hmem
      have hget : odGet p.1 out = some p.2 :=
        odGet_of_mem_nodup hndO (hmem p (List.mem_cons_self _ _))
      rw [merge_configs_cons out p rest' hget, List.foldl_cons]
      have hc : containsKey p.1 out = true :=
        (containsKey_iff _ _).mpr
          (List.mem_map_of_mem Prod.fst (hmem p (List.mem_cons_self _ _)))
      rw [List.map_cons, List.nodup_cons] at hndR
      apply ih
      · rw [keys_odSet_of_contains _ _ _ hc]
        exact hndO
      · exact hndR.2
      · intro q hq
        have hqne : q.1 ≠ p.1 := by
          intro he
          exact hndR.1 (he ▸ List.mem_map_of_mem Prod.fst hq)
        exact mem_odSet_of_ne (hmem q (List.mem_cons_of_mem _ hq)) hqne

theorem foldl_odSet_map_go (g : String → Value → Value) :
    ∀ (rest done : List KV),
    ((done ++ rest).map Prod.fst).Nodup →
    List.foldl (fun o p => odSet p.1 (g p.1 p.2) o)
      (done.map (fun q => (q.1, g q.1 q.2)) ++ rest) rest
    = (done ++ rest).map (fun q => (q.1, g q.1 q.2)) := by
  intro rest
  induction rest with
  | nil =>
      intro done _
      rw [List.append_nil, List.foldl_nil, List.append_nil]
  | cons p rest' ih =>
      intro done hnd
      rw [List.foldl_cons]
      have hpmem : p ∈ done.map (fun q => (q.1, g q.1 q.2)) ++ p :: rest' :=
        List.mem_append.mpr (Or.inr (List.mem_cons_self _ _))
      have hc : containsKey p.1
          (done.map (fun q => (q.1, g q.1 q.2)) ++ p :: rest') = true :=
        (containsKey_iff _ _).mpr (List.mem_map_of_mem Prod.fst hpmem)
      have hdisj : ∀ x ∈ done.map Prod.fst, x ∉ (p :: rest').map Prod.fst := by
        rw [List.map_append] at hnd
        exact fun x hx hb => (List.disjoint_of_nodup_append hnd) hx hb
      have hno1 : ∀ q ∈ done.map (fun q => (q.1, g q.1 q.2)), q.1 ≠ p.1 := by
        intro q hq he
        obtain ⟨r, hr, hrq⟩ := List.mem_map.mp hq
        have hq1 : r.1 = q.1 := by rw [← hrq]
        refine hdisj r.1 (List.mem_map_of_mem Prod.fst hr) ?_
        rw [hq1, he, List.map_cons]
        exact List.mem_cons_self _ _
      have hno2 : ∀ q ∈ rest', q.1 ≠ p.1 := by
        have h2 : ((p :: rest').map Prod.fst).Nodup := by
          rw [List.map_append] at hnd
          exact List.Nodup.of_append_right hnd
        rw [List.map_cons, List.nodup_cons] at h2
        intro q hq he
        exact h2.1 (he ▸ List.mem_map_of_mem Prod.fst hq)
      rw [odSet, if_pos hc, List.map_append, List.map_cons,
        mapf_id_of_no_key p.1 (g p.1 p.2) _ hno1,
        mapf_id_of_no_key p.1 (g p.1 p.2) rest' hno2,
        if_pos (beq_self_eq_true p.1)]
      have hacc : done.map (fun q => (q.1, g q.1 q.2)) ++
            ((p.1, g p.1 p.2) :: rest')
          = (done ++ [p]).map (fun q => (q.1, g q.1 q.2)) ++ rest' := by
        rw [List.map_append, List.map_cons, List.map_nil, List.append_assoc]
        rfl
      have hnd2 : (((done ++ [p]) ++ rest').map Prod.fst).Nodup := by
        rw [List.append_assoc, List.singleton_append]
        exact hnd
      rw [hacc, ih (done ++ [p]) hnd2, List.append_assoc,
        List.singleton_append]

theorem merge_configs_self_eq_map (c : List KV)
    (hnd : (c.map Prod.fst).Nodup) :
    merge_configs c c = c.map (fun p => (p.1, selfStep p.1 p.2)) := by
  rw [merge_configs_self_map c c hnd hnd (fun p hp => hp)]
  have h := foldl_odSet_map_go selfStep c [] (by simpa using hnd)
  simpa using h

theorem selfStep_event (k : String) (v : Value)
    (hev : EVENT_KEYS.contains k = true) :
    selfStep k v = merge_event_sections v v := by
  show (if EVENT_KEYS.contains k then
      merge_event_sections v v
    else match v with
      | .dict d => mergeV (.dict d) (.dict d)
      | _ => v) = merge_event_sections v v
  rw [if_pos hev]

theorem selfStep_nonevent_match (k : String) (v : Value)
    (hev : ¬ EVENT_KEYS.contains k = true) :
    selfStep k v = (match v with
      | .dict d => mergeV (.dict d) (.dict d)
      | _ => v) := by
  show (if EVENT_KEYS.contains k then
      merge_event_sections v v
    else match v with
      | .dict d => mergeV (.dict d) (.dict d)
      | _ => v) = _
  rw [if_neg hev]

theorem selfStep_nonevent (k : String) (v : Value)
    (hev : ¬ EVENT_KEYS.contains k = true) (hwf : vwf v = true) :
    selfStep k v = v := by
  rw [selfStep_nonevent_match k v hev]
  cases hv : v with
  | dict d => exact mergeV_self (.dict d) (hv ▸ hwf)
  | null => rfl
  | bool b => rfl
  | str t => rfl
  | int n => rfl
  | list l => rfl

theorem selfStep_idem (k : String) (v : Value) (hwf : vwf v = true)
    (hbr : EVENT_KEYS.contains k = true →
      removeStrs (normalize_event_section v) = [] ∨
      ∀ e ∈ sec_tasks (normalize_event_section v), is_disabled e = false) :
    selfStep k (selfStep k v) = selfStep k v := by
  by_cases hev : EVENT_KEYS.contains k = true
  · rw [selfStep_event k v hev, selfStep_event k _ hev]
    exact merge_event_sections_self_idem v (hbr hev)
  · rw [selfStep_nonevent k v hev hwf, selfStep_nonevent k v hev hwf]

/-- C8 (counterexample): for the config `c8cfg` — whose PostToolUse section
both removes the id "A" and still lists a task with id "A" (plus a disabled
duplicate of "B") — merging the config with itself is not idempotent: the
once-merged config changes again when merged with itself (the removed-then-
re-added task id moves to the end of the task list). -/
theorem merge_configs_self_not_idem :
    merge_configs (merge_configs c8cfg c8cfg) (merge_configs c8cfg c8cfg)
      ≠ merge_configs c8cfg c8cfg := by decide

/-- C8: for a well-formed config (every dict has distinct keys) each of
whose event sections either has an effectively empty remove list or no
disabled task entry, self-merging is idempotent — merging the self-merged
config with itself again equals merging once — and every event section of
the merged config carries a task list deduplicated by task identity (its
entries' task keys are pairwise distinct). Without the per-section
condition idempotence fails (`merge_configs_self_not_idem`). -/
theorem merge_configs_self_idem (c : List KV)
    (hwf : vwf (.dict c) = true)
    (hbr : ∀ p ∈ c, EVENT_KEYS.contains p.1 = true →
      removeStrs (normalize_event_section p.2) = [] ∨
      ∀ e ∈ sec_tasks (normalize_event_section p.2), is_disabled e = false) :
    merge_configs (merge_configs c c) (merge_configs c c)
      = merge_configs c c ∧
    ∀ q ∈ merge_configs c c, EVENT_KEYS.contains q.1 = true →
      ((sec_tasks (normalize_event_section q.2)).map task_key).Nodup := by
  have hwf1 : (nodupKeysB (c.map Prod.fst) && vwfKV c) = true := hwf
  rw [Bool.and_eq_true] at hwf1
  have hnd : (c.map Prod.fst).Nodup := (nodupKeysB_iff _).mp hwf1.1
  have hmap := merge_configs_self_eq_map c hnd
  have hkeysm : (merge_configs c c).map Prod.fst = c.map Prod.fst := by
    rw [hmap, List.map_map]
    apply List.map_congr_left
    intro q _
    rfl
  constructor
  · have hndm : ((merge_configs c c).map Prod.fst).Nodup := by
      rw [hkeysm]
      exact hnd
    rw [merge_configs_self_eq_map (merge_configs c c) hndm, hmap,
      List.map_map]
    apply List.map_congr_left
    intro p hp
    show (p.1, selfStep p.1 (selfStep p.1 p.2)) = (p.1, selfStep p.1 p.2)
    rw [selfStep_idem p.1 p.2 (vwfKV_mem hwf1.2 hp) (hbr p hp)]
  · intro q hq hev
    rw [hmap] at hq
    obtain ⟨p, hp, hpq⟩ := List.mem_map.mp hq
    have hq1 : p.1 = q.1 := by rw [← hpq]
    have hq2 : q.2 = selfStep p.1 p.2 := by rw [← hpq]
    rw [hq2, selfStep_event p.1 p.2 (hq1 ▸ hev)]
    exact sec_tasks_merge_nodup p.2 p.2

/-- Witness: `c8good` (a PostToolUse section with two enabled tasks and a
remove list naming an absent id, plus a scalar key) satisfies the
hypotheses, and the theorem applies to it. -/
theorem merge_configs_self_idem_witness :
    ((vwf (.dict c8good) = true) ∧
      (∀ p ∈ c8good, EVENT_KEYS.contains p.1 = true →
        removeStrs (normalize_event_section p.2) = [] ∨
        ∀ e ∈ sec_tasks (normalize_event_section p.2),
          is_disabled e = false)) ∧
    (merge_configs (merge_configs c8good c8good)
        (merge_configs c8good c8good)
      = merge_configs c8good c8good ∧
    ∀ q ∈ merge_configs c8good c8good, EVENT_KEYS.contains q.1 = true →
      ((sec_tasks (normalize_event_section q.2)).map task_key).Nodup) := by
  have h1 : vwf (.dict c8good) = true := by decide
  have h2 : ∀ p ∈ c8good, EVENT_KEYS.contains p.1 = true →
      removeStrs (normalize_event_section p.2) = [] ∨
      ∀ e ∈ sec_tasks (normalize_event_section p.2),
        is_disabled e = false := by decide
  exact ⟨⟨h1, h2⟩, merge_configs_self_idem c8good h1 h2⟩

end Xeno
